import Mathlib

/-!
Shallow embedding of the trace-to-pprof encoder (`ToPprof`, `StrTab` and the
aggregation pass) of the trace2timeline repository.

Go maps are modelled as insertion-ordered association lists; wherever the Go
code *iterates* a map (`for k, v := range m`) — whose order Go does not
specify — the model takes an explicit iteration-order parameter (a list of
keys), and theorems hypothesise that this list is a permutation of the map's
keys.  Machine integers `int64`/`uint64` are modelled as `Int`/`Nat`; none of
the quantities involved (table sizes, dense IDs, counts) can overflow for the
inputs the claims quantify over, and the code performs no wrap-around
arithmetic on them.
-/

namespace Trace2Timeline

/-- A stack frame, as used by `ToPprof` (`frame.PC`, `frame.Fn`, `frame.File`,
`frame.Line`).  The struct itself lives in the vendored trace parser (not part
of the encoder source); its fields are taken from their uses in `ToPprof` and
from the spec's Frame entity. -/
structure Frame where
  PC : Nat
  Fn : String
  File : String
  Line : Int
deriving DecidableEq, Repr

/-- A trace event, as used by `ToPprof` (`event.Type`, `event.Ts`, `event.G`,
`event.StkID`).  `typ` stands for the Go field `Type` (a Lean keyword). -/
structure Event where
  typ : Nat
  Ts : Int
  G : Nat
  StkID : Nat
deriving DecidableEq, Repr

/-- Modelled from the spec: the numeric code of CPU-sample events.  The
constant is declared by the vendored trace parser; only its identity matters
(the encoder compares `event.Type == EvCPUSample`). -/
def EvCPUSample : Nat := 55

/-- The decoder's output consumed by `ToPprof`.  `Stacks` is a Go map
`map[uint64][]Frame`, modelled as an association list. -/
structure ParseResult where
  Events : List Event
  Stacks : List (Nat × List Frame)
deriving DecidableEq, Repr

/-- Go map indexing `parsed.Stacks[id]`: a missing key yields the zero value,
i.e. a nil (empty) slice. -/
def lookupStacks (stks : List (Nat × List Frame)) (id : Nat) : List Frame :=
  match stks.find? (fun p => p.1 == id) with
  | some p => p.2
  | none => []

/-- `strconv.Itoa(int(g))` for `g : uint64`: the cast to `int` wraps at
`2^63`. -/
def goItoa (g : Nat) : String :=
  toString (if g < 2 ^ 63 then (g : Int) else (g : Int) - 2 ^ 64)

structure Breakdown where
  Timestamps : List Int
  Values : List Int
  LabelSets : List Int
deriving DecidableEq, Repr

structure PprofInfo where
  Value : Int
  Breakdown : Breakdown
deriving DecidableEq, Repr

structure LabelSet where
  ID : Int
  Labels : List String
deriving DecidableEq, Repr

/-- The mutable state of the aggregation pass of `ToPprof`: the map
`info : map[uint64]*PprofInfo`, the map `labelSetIDs : map[string]*LabelSet`
keyed by the no-separator concatenation of the labels, and the slice
`labelSets`. -/
structure AggState where
  info : List (Nat × PprofInfo)
  labelSetIDs : List (String × LabelSet)
  labelSets : List LabelSet
deriving DecidableEq, Repr

def emptyAgg : AggState := ⟨[], [], []⟩

/-- The label list built for one CPU-sample event (lines 64–70 of the
encoder). -/
def eventLabels (e : Event) : List String :=
  ["thread_id:", goItoa e.G]

/-- `strings.Builder` concatenation of the labels, with no separator. -/
def concatLabels (labels : List String) : String :=
  labels.foldl (fun acc l => acc ++ l) ""

/-- The label-set registry step (lines 71–84): look the concatenation key up
in `labelSetIDs`; if absent, create a `LabelSet` whose ID is the current
length of `labelSets` and record it in both structures. -/
def getLabelSet (labels : List String) (st : AggState) : LabelSet × AggState :=
  let s := concatLabels labels
  match st.labelSetIDs.find? (fun p => p.1 == s) with
  | some p => (p.2, st)
  | none =>
      let set : LabelSet := ⟨(st.labelSets.length : Int), labels⟩
      (set, { st with labelSetIDs := st.labelSetIDs ++ [(s, set)],
                      labelSets := st.labelSets ++ [set] })

/-- Replace the entry for key `k` (the Go code mutates the `*PprofInfo`
through the map), inserting at the end if absent. -/
def updateInfo (info : List (Nat × PprofInfo)) (k : Nat) (v : PprofInfo) :
    List (Nat × PprofInfo) :=
  match info.find? (fun p => p.1 == k) with
  | some _ => info.map (fun p => if p.1 == k then (k, v) else p)
  | none => info ++ [(k, v)]

def lookupInfo (info : List (Nat × PprofInfo)) (k : Nat) : Option PprofInfo :=
  (info.find? (fun p => p.1 == k)).map (fun p => p.2)

/-- One step of the aggregation loop (lines 51–87): non-CPU-sample events are
ignored; a CPU sample increments the aggregate's `Value` by 1, appends the
timestamp and the value, resolves the label set and appends its ID. -/
def aggStep (st : AggState) (e : Event) : AggState :=
  if e.typ == EvCPUSample then
    let pp := (lookupInfo st.info e.StkID).getD ⟨0, ⟨[], [], []⟩⟩
    let value : Int := 1
    let r := getLabelSet (eventLabels e) st
    let pp' : PprofInfo :=
      ⟨pp.Value + value,
       ⟨pp.Breakdown.Timestamps ++ [e.Ts],
        pp.Breakdown.Values ++ [value],
        pp.Breakdown.LabelSets ++ [r.1.ID]⟩⟩
    { r.2 with info := updateInfo r.2.info e.StkID pp' }
  else st

def aggregate (events : List Event) : AggState :=
  events.foldl aggStep emptyAgg

/-- `StrTab`: deduplicates strings, giving them dense IDs, modelled as an
insertion-ordered association list for the Go map `map[string]int64`. -/
abbrev StrTab := List (String × Int)

/-- `StrTab.Get`: return the existing ID if present, otherwise assign
`len(t)` as the ID and store it. -/
def StrTab.Get (t : StrTab) (s : String) : Int × StrTab :=
  match t.find? (fun p => p.1 == s) with
  | some p => (p.2, t)
  | none => ((t.length : Int), t ++ [(s, (t.length : Int))])

def StrTab.keys (t : StrTab) : List String := t.map (fun p => p.1)

/-- A protobuf wire value, at the level of tagged records: varints
(`Int64`/`Uint64`), packed varint arrays, length-delimited strings, and
embedded messages (lists of numbered fields).  The external `molecule`
library that renders these records to bytes omits scalar fields whose value
is 0 (proto3 default semantics, under which an absent field decodes to 0);
the model keeps every record, which is equivalent under those decoding
semantics and is also why the source writes the string table by hand (the
library refuses the forced zero-length entry). -/
inductive PValue where
  | i64 (v : Int)
  | u64 (v : Nat)
  | packed (vs : List Int)
  | bytes (s : String)
  | msg (fields : List (Nat × PValue))

abbrev PRecord := Nat × PValue

/-- Value-type section (field 1): `{type = Get "time", unit = Get "ns"}`. -/
def valueTypeSection (t : StrTab) : PRecord × StrTab :=
  let r1 := t.Get "time"
  let r2 := r1.2.Get "ns"
  ((1, .msg [(1, .i64 r1.1), (2, .i64 r2.1)]), r2.2)

/-- The inner label loop of a LabelSet record: `for i := 0; i < len; i += 2`
emitting an embedded label `{key = Get labels[i], value = Get labels[i+1]}`.
(A trailing unpaired label would be an index-out-of-range panic in the source;
labels are always produced in pairs.) -/
def labelPairs (t : StrTab) : List String → List PRecord × StrTab
  | k :: v :: rest =>
      let r1 := t.Get k
      let r2 := r1.2.Get v
      let r3 := labelPairs r2.2 rest
      ((2, .msg [(1, .i64 r1.1), (2, .i64 r2.1)]) :: r3.1, r3.2)
  | _ => ([], t)

/-- One LabelSet record (field 16): the set's ID followed by its label
pairs. -/
def labelSetRecord (t : StrTab) (set : LabelSet) : PRecord × StrTab :=
  let r := labelPairs t set.Labels
  ((16, .msg ((1, .u64 set.ID.toNat) :: r.1)), r.2)

/-- The LabelSet section: one record per stored set, in slice order. -/
def labelSetsSection (t : StrTab) : List LabelSet → List PRecord × StrTab
  | [] => ([], t)
  | set :: rest =>
      let r := labelSetRecord t set
      let rs := labelSetsSection r.2 rest
      (r.1 :: rs.1, rs.2)

/-- One Sample record (field 2): the PCs of the sample's stack as location
IDs (field 1, repeated), the aggregate value (field 2), and the embedded
Breakdown (field 4) with its three packed arrays. -/
def sampleRecord (stks : List (Nat × List Frame)) (id : Nat)
    (pp : PprofInfo) : PRecord :=
  (2, .msg
    (((lookupStacks stks id).map (fun f => ((1 : Nat), PValue.u64 f.PC))) ++
     [(2, .i64 pp.Value),
      (4, .msg [(1, .packed pp.Breakdown.Timestamps),
                (2, .packed pp.Breakdown.Values),
                (3, .packed pp.Breakdown.LabelSets)])]))

/-- The Sample section: `for id, pp := range info` in the given map-iteration
order. -/
def samplesSection (stks : List (Nat × List Frame))
    (info : List (Nat × PprofInfo)) (order : List Nat) : List PRecord :=
  order.filterMap (fun id => (lookupInfo info id).map (sampleRecord stks id))

/-- The concatenation key `frame.Fn + frame.File` used to deduplicate
functions. -/
def fnKey (f : Frame) : String := f.Fn ++ f.File

abbrev Functions := List (String × Nat)

/-- The Function pass over a flattened frame sequence: skip a frame whose
concatenation key was already seen, otherwise assign `len(functions)+1` as
the ID, record it, and emit the Function record (field 5) interning the name
and the file name. -/
def functionsPass (fns : Functions) (t : StrTab) :
    List Frame → Functions × List PRecord × StrTab
  | [] => (fns, [], t)
  | f :: rest =>
      match fns.find? (fun p => p.1 == fnKey f) with
      | some _ => functionsPass fns t rest
      | none =>
          let id := fns.length + 1
          let r1 := t.Get f.Fn
          let r2 := r1.2.Get f.File
          let rs := functionsPass (fns ++ [(fnKey f, id)]) r2.2 rest
          (rs.1,
           (5, .msg [(1, .u64 id), (2, .i64 r1.1), (4, .i64 r2.1)]) :: rs.2.1,
           rs.2.2)

/-- The frames visited by `for _, stk := range parsed.Stacks`, flattened, for
a given map-iteration order over the stack IDs. -/
def framesOf (stks : List (Nat × List Frame)) (order : List Nat) :
    List Frame :=
  (order.map (lookupStacks stks)).flatten

/-- Go map lookup `functions[key]`: a missing key yields the zero value 0. -/
def fnLookup (fns : Functions) (key : String) : Nat :=
  ((fns.find? (fun p => p.1 == key)).map (fun p => p.2)).getD 0

/-- One Location record (field 4) for a frame: ID and address are the PC
itself, the mapping ID is the fixed 1, and the embedded line (field 4)
carries the Function ID resolved from the concatenation key, and the line. -/
def locRecord (fns : Functions) (f : Frame) : PRecord :=
  (4, .msg [(1, .u64 f.PC), (2, .u64 1), (3, .u64 f.PC),
            (4, .msg [(1, .u64 (fnLookup fns (fnKey f))),
                      (2, .i64 f.Line)])])

/-- The Location pass over a flattened frame sequence, using the Function
index built by the Function pass: skip an already-seen PC, otherwise record
it in `locs` and emit its Location record. -/
def locationsPass (fns : Functions) (locs : List Nat) :
    List Frame → List PRecord
  | [] => []
  | f :: rest =>
      if f.PC ∈ locs then locationsPass fns locs rest
      else locRecord fns f :: locationsPass fns (locs ++ [f.PC]) rest

/-- The whole of `ToPprof`'s serialization, producing the list of top-level
records together with the final string table.  `sampleOrder`, `fnOrder` and
`locOrder` are the iteration orders of the three Go map iterations
(`range info` and the two `range parsed.Stacks`); `strOrder` is the
iteration order of the final `range strtab`. -/
def toPprofCore (parsed : ParseResult) (startNs stopNs : Int)
    (sampleOrder fnOrder locOrder : List Nat) (strOrder : List String) :
    List PRecord × StrTab :=
  let agg := aggregate parsed.Events
  let vt := valueTypeSection []
  let ls := labelSetsSection vt.2 agg.labelSets
  let smpRecs := samplesSection parsed.Stacks agg.info sampleOrder
  let mapRec : PRecord := (3, .msg [(1, .u64 1)])
  let fp := functionsPass [] ls.2 (framesOf parsed.Stacks fnOrder)
  let locRecs := locationsPass fp.1 [] (framesOf parsed.Stacks locOrder)
  let pt1 := fp.2.2.Get "time"
  let pt2 := pt1.2.Get "ns"
  let tick := pt2.2.Get "nanoseconds"
  let tailRecs : List PRecord :=
    [(9, .i64 startNs), (10, .i64 (stopNs - startNs)),
     (11, .msg [(1, .i64 pt1.1), (2, .i64 pt2.1)]),
     (12, .i64 1), (15, .i64 tick.1)]
  let strRecs : List PRecord :=
    (6, .bytes "") :: strOrder.map (fun s => (6, PValue.bytes s))
  (vt.1 :: ls.1 ++ smpRecs ++ mapRec :: fp.2.1 ++ locRecs ++ tailRecs ++
     strRecs,
   tick.2)

/-- The emitted artifact of `ToPprof`. -/
def toPprof (parsed : ParseResult) (startNs stopNs : Int)
    (sampleOrder fnOrder locOrder : List Nat) (strOrder : List String) :
    List PRecord :=
  (toPprofCore parsed startNs stopNs sampleOrder fnOrder locOrder
    strOrder).1

/-- The in-memory string table once every section before the string table has
been written.  It does not depend on the iteration orders of the Sample and
Location sections (which intern nothing) nor on `strOrder`, but the names
and files interned by the Function pass do depend on its scan order. -/
def finalStrTab (parsed : ParseResult) (fnOrder : List Nat) : StrTab :=
  (toPprofCore parsed 0 0 [] fnOrder [] []).2

/-- The Function pass exactly as invoked inside `ToPprof` (with the string
table as grown by the value-type and LabelSet sections). -/
def fnSectionOf (parsed : ParseResult) (fnOrder : List Nat) :
    Functions × List PRecord × StrTab :=
  functionsPass []
    (labelSetsSection (valueTypeSection []).2
      (aggregate parsed.Events).labelSets).2
    (framesOf parsed.Stacks fnOrder)

/-- The Location section exactly as emitted by `ToPprof`. -/
def locSectionOf (parsed : ParseResult) (fnOrder locOrder : List Nat) :
    List PRecord :=
  locationsPass (fnSectionOf parsed fnOrder).1 []
    (framesOf parsed.Stacks locOrder)

/-- Everything `ToPprof` emits before the string table. -/
def toPprofPre (parsed : ParseResult) (startNs stopNs : Int)
    (sampleOrder fnOrder locOrder : List Nat) : List PRecord :=
  let agg := aggregate parsed.Events
  let vt := valueTypeSection []
  let ls := labelSetsSection vt.2 agg.labelSets
  let fp := fnSectionOf parsed fnOrder
  let pt1 := fp.2.2.Get "time"
  let pt2 := pt1.2.Get "ns"
  let tick := pt2.2.Get "nanoseconds"
  vt.1 :: ls.1 ++ samplesSection parsed.Stacks agg.info sampleOrder ++
    (3, .msg [(1, .u64 1)]) :: fp.2.1 ++
    locSectionOf parsed fnOrder locOrder ++
    [(9, .i64 startNs), (10, .i64 (stopNs - startNs)),
     (11, .msg [(1, .i64 pt1.1), (2, .i64 pt2.1)]),
     (12, .i64 1), (15, .i64 tick.1)]

/-! ### Observers on the emitted artifact -/

/-- The string-table entry of a field-6 record, if the record is one. -/
def stringEntry (r : PRecord) : Option String :=
  if r.1 = 6 then
    match r.2 with
    | .bytes s => some s
    | _ => none
  else none

/-- The string-table entries of the artifact: the payloads of the field-6
records, in emission order. -/
def stringEntries (art : List PRecord) : List String :=
  art.filterMap stringEntry

/-- How many top-level records carry field number `n`. -/
def countField (art : List PRecord) (n : Nat) : Nat :=
  art.countP (fun r => r.1 == n)

/-- The `(ID, name index, file index)` payload of a Function (field-5)
record. -/
def fnRecDatum (r : PRecord) : Option (Nat × Int × Int) :=
  if r.1 = 5 then
    match r.2 with
    | .msg [(1, .u64 id), (2, .i64 nm), (4, .i64 fl)] => some (id, nm, fl)
    | _ => none
  else none

/-- The `(ID, name index, file index)` triples of the Function records. -/
def fnRecData (art : List PRecord) : List (Nat × Int × Int) :=
  art.filterMap fnRecDatum

/-- The `(ID, address, function ID, line)` payload of a Location (field-4)
record. -/
def locRecDatum (r : PRecord) : Option (Nat × Nat × Nat × Int) :=
  if r.1 = 4 then
    match r.2 with
    | .msg [(1, .u64 pc), (2, .u64 _), (3, .u64 addr),
            (4, .msg [(1, .u64 fid), (2, .i64 ln)])] =>
        some (pc, addr, fid, ln)
    | _ => none
  else none

/-- The `(ID, address, function ID, line)` tuples of the Location records. -/
def locRecData (art : List PRecord) : List (Nat × Nat × Nat × Int) :=
  art.filterMap locRecDatum

/-- A location-identifier (field-1) entry inside a Sample record. -/
def pcRef (q : PRecord) : Option Nat :=
  if q.1 = 1 then
    match q.2 with
    | .u64 pc => some pc
    | _ => none
  else none

/-- The list of location identifiers referenced by a Sample (field-2)
record. -/
def sampleLocRef (r : PRecord) : Option (List Nat) :=
  if r.1 = 2 then
    match r.2 with
    | .msg fields => some (fields.filterMap pcRef)
    | _ => none
  else none

/-- The lists of location identifiers referenced by each Sample record, in
emission order. -/
def sampleLocRefs (art : List PRecord) : List (List Nat) :=
  art.filterMap sampleLocRef

/-! ### First-encounter deduplication, used to state what the passes build -/

/-- The elements of a list not occurring in `seen`, each kept at its first
occurrence. -/
def firstDedup {α : Type} [DecidableEq α] (seen : List α) :
    List α → List α
  | [] => []
  | x :: rest =>
      if x ∈ seen then firstDedup seen rest
      else x :: firstDedup (seen ++ [x]) rest

/-- The frames of a sequence whose PC is not in `seen`, keeping only the
first frame for each distinct program counter. -/
def firstFramesByPC (seen : List Nat) : List Frame → List Frame
  | [] => []
  | f :: rest =>
      if f.PC ∈ seen then firstFramesByPC seen rest
      else f :: firstFramesByPC (seen ++ [f.PC]) rest

/-- The CPU-sample events of a stream whose `StkID` is `id`, in stream
order. -/
def cpuEventsFor (events : List Event) (id : Nat) : List Event :=
  events.filter (fun e => e.typ == EvCPUSample && e.StkID == id)

/-- The stack IDs of the CPU-sample events of a stream, in stream order. -/
def cpuStackIDs (events : List Event) : List Nat :=
  (events.filter (fun e => e.typ == EvCPUSample)).map Event.StkID

/-- What the aggregation pass has built after consuming `processed`: the
keys of `info` are the distinct CPU-sample stack IDs in first-encounter
order, and the aggregate of each stack ID (an absent key standing for the
zero aggregate) breaks down exactly into that stack's CPU-sample events in
stream order, one unit value per event. -/
def AggInvariant (processed : List Event) (st : AggState) : Prop :=
  st.info.map Prod.fst = firstDedup [] (cpuStackIDs processed) ∧
  ∀ id : Nat,
    ((lookupInfo st.info id).getD ⟨0, ⟨[], [], []⟩⟩).Breakdown.Timestamps =
      (cpuEventsFor processed id).map Event.Ts ∧
    ((lookupInfo st.info id).getD ⟨0, ⟨[], [], []⟩⟩).Breakdown.Values =
      List.replicate (cpuEventsFor processed id).length 1 ∧
    ((lookupInfo st.info id).getD ⟨0, ⟨[], [], []⟩⟩).Breakdown.LabelSets.length =
      (cpuEventsFor processed id).length ∧
    ((lookupInfo st.info id).getD ⟨0, ⟨[], [], []⟩⟩).Value =
      ((cpuEventsFor processed id).length : Int)

/-- Well-formedness of an in-memory string table: the assigned IDs are
exactly `0, 1, …, len-1` in insertion order (so they are dense, starting at
0), and no string occurs twice. -/
def WFtab (t : StrTab) : Prop :=
  t.map Prod.snd = (List.range t.length).map (fun n => (n : Int)) ∧
  (t.map Prod.fst).Nodup

instance (t : StrTab) : Decidable (WFtab t) := by
  unfold WFtab; infer_instance

/-! ### Concrete inputs used by counterexamples and witnesses -/

/-- An input with no events and no stacks. -/
def pEmpty : ParseResult := ⟨[], []⟩

/-- An input whose single stack holds two frames with distinct
`(Fn, File)` pairs but equal concatenations `Fn ++ File`. -/
def pCollide : ParseResult :=
  ⟨[], [(1, [⟨1, "ab", "c", 1⟩, ⟨2, "a", "bc", 2⟩])]⟩

/-- An input with no events but one stack (a stack referenced by no
sample). -/
def pLoneStack : ParseResult := ⟨[], [(1, [⟨100, "f", "a.go", 5⟩])]⟩

/-- One CPU sample on goroutine 7 at stack 1 (the spec's Scenario B). -/
def pOneSample : ParseResult :=
  ⟨[⟨EvCPUSample, 10, 7, 1⟩], [(1, [⟨100, "f", "a.go", 5⟩])]⟩

/-- One CPU sample whose `StkID` has no entry in the `Stacks` mapping. -/
def pMissingStack : ParseResult := ⟨[⟨EvCPUSample, 10, 7, 2⟩], []⟩

/-- Two CPU samples on the same stack, different goroutines (Scenario C). -/
def pTwoSamples : ParseResult :=
  ⟨[⟨EvCPUSample, 10, 7, 1⟩, ⟨EvCPUSample, 20, 8, 1⟩],
   [(1, [⟨100, "f", "a.go", 5⟩])]⟩

/-! ## Association-list lemmas -/

theorem find?_key_none {α β : Type} [BEq α] [LawfulBEq α]
    (l : List (α × β)) (k : α) :
    l.find? (fun p => p.1 == k) = none ↔ k ∉ l.map Prod.fst := by
  rw [List.find?_eq_none]
  constructor
  · intro h hk
    obtain ⟨p, hp, hpk⟩ := List.mem_map.mp hk
    exact h p hp (by simp [hpk])
  · intro h p hp hbeq
    exact h (List.mem_map.mpr ⟨p, hp, beq_iff_eq.mp hbeq⟩)

theorem find?_key_isSome {α β : Type} [BEq α] [LawfulBEq α]
    (l : List (α × β)) (k : α) :
    (l.find? (fun p => p.1 == k)).isSome = true ↔ k ∈ l.map Prod.fst := by
  rw [List.find?_isSome]
  constructor
  · rintro ⟨p, hp, hbeq⟩
    exact List.mem_map.mpr ⟨p, hp, beq_iff_eq.mp hbeq⟩
  · intro hk
    obtain ⟨p, hp, hpk⟩ := List.mem_map.mp hk
    exact ⟨p, hp, by simp [hpk]⟩

theorem find?_key_of_mem_nodup {α β : Type} [BEq α] [LawfulBEq α]
    (l : List (α × β)) (k : α) (v : β)
    (hnd : (l.map Prod.fst).Nodup) (h : (k, v) ∈ l) :
    l.find? (fun p => p.1 == k) = some (k, v) := by
  induction l with
  | nil => cases h
  | cons a rest ih =>
    rw [List.find?_cons]
    rcases List.mem_cons.mp h with h1 | h1
    · rw [← h1]
      simp
    · rw [List.map_cons] at hnd
      have hnd' := List.nodup_cons.mp hnd
      have hak : (a.1 == k) = false := by
        rw [beq_eq_false_iff_ne]
        intro hak
        exact hnd'.1 (hak ▸ List.mem_map.mpr ⟨(k, v), h1, rfl⟩)
      rw [hak]
      exact ih hnd'.2 h1

/-! ## `StrTab` lemmas -/

theorem StrTab.Get_of_mem (t : StrTab) (s : String) (i : Int)
    (hnd : (t.map Prod.fst).Nodup) (h : (s, i) ∈ t) :
    t.Get s = (i, t) := by
  unfold StrTab.Get
  rw [find?_key_of_mem_nodup t s i hnd h]

theorem StrTab.Get_of_not_mem (t : StrTab) (s : String)
    (h : s ∉ t.map Prod.fst) :
    t.Get s = ((t.length : Int), t ++ [(s, (t.length : Int))]) := by
  unfold StrTab.Get
  rw [(find?_key_none t s).mpr h]

theorem StrTab.Get_wf (t : StrTab) (s : String) (h : WFtab t) :
    WFtab (t.Get s).2 := by
  rcases ht : t.find? (fun p => p.1 == s) with _ | p
  · have hs : s ∉ t.map Prod.fst := (find?_key_none t s).mp ht
    unfold StrTab.Get
    rw [ht]
    refine ⟨?_, ?_⟩
    · simp only [List.map_append, List.length_append, List.map_cons,
        List.map_nil, List.length_cons, List.length_nil]
      rw [h.1, List.range_succ]
      simp
    · simp only [List.map_append, List.map_cons, List.map_nil]
      rw [List.nodup_append]
      exact ⟨h.2, List.nodup_singleton s, by simpa using hs⟩
  · unfold StrTab.Get
    rw [ht]
    exact h

theorem StrTab.Get_grows (t : StrTab) (s : String) (p : String × Int)
    (h : p ∈ t) : p ∈ (t.Get s).2 := by
  rcases ht : t.find? (fun q => q.1 == s) with _ | q <;>
    unfold StrTab.Get <;> rw [ht] <;> simp [h]

/-! ## The string table stays well formed through every section -/

theorem valueTypeSection_wf (t : StrTab) (h : WFtab t) :
    WFtab (valueTypeSection t).2 :=
  StrTab.Get_wf _ _ (StrTab.Get_wf _ _ h)

theorem labelPairs_wf : ∀ (ls : List String) (t : StrTab), WFtab t →
    WFtab (labelPairs t ls).2
  | [], _, h => h
  | [_], _, h => h
  | _ :: _ :: rest, _, h =>
      labelPairs_wf rest _ (StrTab.Get_wf _ _ (StrTab.Get_wf _ _ h))

theorem labelSetsSection_wf : ∀ (sets : List LabelSet) (t : StrTab),
    WFtab t → WFtab (labelSetsSection t sets).2
  | [], _, h => h
  | set :: rest, t, h =>
      labelSetsSection_wf rest _ (labelPairs_wf set.Labels t h)

theorem functionsPass_wf : ∀ (frames : List Frame) (fns : Functions)
    (t : StrTab), WFtab t → WFtab (functionsPass fns t frames).2.2
  | [], _, _, h => h
  | f :: rest, fns, t, h => by
      unfold functionsPass
      rcases hf : fns.find? (fun p => p.1 == fnKey f) with _ | p <;> rw [hf]
      · exact functionsPass_wf rest _ _
          (StrTab.Get_wf _ _ (StrTab.Get_wf _ _ h))
      · exact functionsPass_wf rest fns t h

theorem finalStrTab_wf (parsed : ParseResult) (fnOrder : List Nat) :
    WFtab (finalStrTab parsed fnOrder) := by
  have h0 : WFtab ([] : StrTab) := by constructor <;> simp
  exact StrTab.Get_wf _ _ (StrTab.Get_wf _ _ (StrTab.Get_wf _ _
    (functionsPass_wf _ _ _
      (labelSetsSection_wf _ _ (valueTypeSection_wf _ h0)))))

/-- The final in-memory string table does not depend on the timestamps, on
the Sample and Location iteration orders, or on the string-table iteration
order. -/
theorem toPprofCore_snd (parsed : ParseResult) (startNs stopNs : Int)
    (sampleOrder fnOrder locOrder : List Nat) (strOrder : List String) :
    (toPprofCore parsed startNs stopNs sampleOrder fnOrder locOrder
      strOrder).2 = finalStrTab parsed fnOrder := rfl

/-! ## Generic fold invariance -/

theorem foldl_inv {α β : Type} (P : β → Prop) (step : β → α → β)
    (hstep : ∀ acc x, P acc → P (step acc x)) :
    ∀ (l : List α) (init : β), P init → P (l.foldl step init)
  | [], _, h => h
  | x :: xs, init, h => foldl_inv P step hstep xs (step init x) (hstep init x h)

/-! ## Label-set registry lemmas -/

/-- A second registry lookup whose concatenation key matches an already
registered sequence returns the registered `LabelSet` and leaves the state
unchanged. -/
theorem getLabelSet_shared (st : AggState) (ls1 ls2 : List String)
    (h : concatLabels ls1 = concatLabels ls2) :
    getLabelSet ls2 (getLabelSet ls1 st).2 =
      ((getLabelSet ls1 st).1, (getLabelSet ls1 st).2) := by
  rcases hf : st.labelSetIDs.find? (fun p => p.1 == concatLabels ls1)
    with _ | p
  · simp only [getLabelSet, ← h, hf]
    rw [List.find?_append, hf]
    simp
  · simp only [getLabelSet, ← h, hf]

/-- `aggStep` either leaves `labelSets` unchanged or appends one set whose
ID is the previous length. -/
theorem aggStep_labelSets (st : AggState) (e : Event) :
    (aggStep st e).labelSets = st.labelSets ∨
    (aggStep st e).labelSets =
      st.labelSets ++ [⟨(st.labelSets.length : Int), eventLabels e⟩] := by
  unfold aggStep
  by_cases he : e.typ == EvCPUSample
  · rw [if_pos he]
    rcases hf : st.labelSetIDs.find?
        (fun p => p.1 == concatLabels (eventLabels e)) with _ | p
    · right
      simp only [getLabelSet, hf]
    · left
      simp only [getLabelSet, hf]
  · rw [if_neg he]
    exact Or.inl rfl

/-- The stored label sets carry the dense IDs `0, 1, …` in order. -/
theorem labelSets_dense (events : List Event) :
    ((aggregate events).labelSets).map LabelSet.ID =
      (List.range (aggregate events).labelSets.length).map
        (fun n => (n : Int)) := by
  unfold aggregate
  refine foldl_inv
    (fun st => st.labelSets.map LabelSet.ID =
      (List.range st.labelSets.length).map (fun n => (n : Int)))
    aggStep ?_ events emptyAgg (by simp [emptyAgg])
  intro st e hst
  rcases aggStep_labelSets st e with h | h <;> rw [h]
  · exact hst
  · simp only [List.map_append, List.length_append, List.map_cons,
      List.map_nil, List.length_cons, List.length_nil]
    rw [hst, List.range_succ]
    simp

/-! ## `firstDedup` lemmas -/

theorem mem_firstDedup {α : Type} [DecidableEq α] (y : α) :
    ∀ (l seen : List α), y ∈ firstDedup seen l ↔ y ∈ l ∧ y ∉ seen
  | [], seen => by simp [firstDedup]
  | z :: rest, seen => by
      by_cases hz : z ∈ seen
      · rw [firstDedup, if_pos hz, mem_firstDedup y rest seen]
        constructor
        · rintro ⟨h1, h2⟩
          exact ⟨List.mem_cons_of_mem z h1, h2⟩
        · rintro ⟨h1, h2⟩
          rcases List.mem_cons.mp h1 with rfl | h1
          · exact absurd hz h2
          · exact ⟨h1, h2⟩
      · rw [firstDedup, if_neg hz]
        rw [List.mem_cons, mem_firstDedup y rest (seen ++ [z])]
        simp only [List.mem_append, List.mem_singleton, List.mem_cons,
          List.not_mem_nil, or_false]
        constructor
        · rintro (rfl | ⟨h1, h2⟩)
          · exact ⟨Or.inl rfl, hz⟩
          · exact ⟨Or.inr h1, fun hs => h2 (Or.inl hs)⟩
        · rintro ⟨rfl | h1, h2⟩
          · exact Or.inl rfl
          · by_cases hyz : y = z
            · exact Or.inl hyz
            · exact Or.inr ⟨h1, fun hs => hs.elim h2 hyz⟩

theorem firstDedup_append_singleton {α : Type} [DecidableEq α] (x : α) :
    ∀ (l seen : List α),
      firstDedup seen (l ++ [x]) =
        firstDedup seen l ++ (if x ∈ seen ∨ x ∈ l then [] else [x])
  | [], seen => by
      by_cases hx : x ∈ seen <;> simp [firstDedup, hx]
  | z :: rest, seen => by
      by_cases hz : z ∈ seen
      · rw [List.cons_append, firstDedup, if_pos hz, firstDedup, if_pos hz,
          firstDedup_append_singleton x rest seen]
        by_cases hx : x ∈ seen ∨ x ∈ rest
        · rw [if_pos hx, if_pos]
          rcases hx with hx | hx
          · exact Or.inl hx
          · exact Or.inr (List.mem_cons_of_mem z hx)
        · rw [if_neg hx, if_neg]
          intro hc
          rcases hc with hc | hc
          · exact hx (Or.inl hc)
          · rcases List.mem_cons.mp hc with rfl | hc
            · exact hx (Or.inl hz)
            · exact hx (Or.inr hc)
      · rw [List.cons_append, firstDedup, if_neg hz, firstDedup, if_neg hz,
          firstDedup_append_singleton x rest (seen ++ [z])]
        rw [List.cons_append]
        congr 1
        by_cases hx : x ∈ seen ++ [z] ∨ x ∈ rest
        · rw [if_pos hx, if_pos]
          rcases hx with hx | hx
          · rcases List.mem_append.mp hx with hx | hx
            · exact Or.inl hx
            · exact Or.inr (List.mem_singleton.mp hx ▸ List.mem_cons_self z rest)
          · exact Or.inr (List.mem_cons_of_mem z hx)
        · rw [if_neg hx, if_neg]
          intro hc
          rcases hc with hc | hc
          · exact hx (Or.inl (List.mem_append.mpr (Or.inl hc)))
          · rcases List.mem_cons.mp hc with rfl | hc
            · exact hx (Or.inl (List.mem_append.mpr (Or.inr (List.mem_singleton.mpr rfl))))
            · exact hx (Or.inr hc)

/-! ## `updateInfo` lemmas -/

theorem lookupInfo_map_update (k : Nat) (v : PprofInfo) :
    ∀ (info : List (Nat × PprofInfo)), k ∈ info.map Prod.fst →
      lookupInfo (info.map (fun p => if p.1 == k then (k, v) else p)) k =
        some v
  | [], h => by simp at h
  | a :: rest, h => by
      by_cases ha : a.1 = k
      · simp [lookupInfo, List.find?_cons, ha]
      · have ha' : (a.1 == k) = false := by simp [ha]
        rw [List.map_cons, if_neg (by simp [ha])]
        rw [List.map_cons] at h
        rcases List.mem_cons.mp h with h1 | h1
        · exact absurd h1.symm ha
        · have := lookupInfo_map_update k v rest h1
          simpa [lookupInfo, List.find?_cons, ha'] using this

theorem lookupInfo_map_update_other (k id : Nat) (v : PprofInfo)
    (h : id ≠ k) :
    ∀ info : List (Nat × PprofInfo),
      lookupInfo (info.map (fun p => if p.1 == k then (k, v) else p)) id =
        lookupInfo info id
  | [] => rfl
  | a :: rest => by
      have ih := lookupInfo_map_update_other k id v h rest
      by_cases ha : a.1 = k
      · have h1 : ((k, v).1 == id) = false := by simp [Ne.symm h]
        have h2 : (a.1 == id) = false := by simp [ha, Ne.symm h]
        simpa [lookupInfo, List.find?_cons, ha, h1, h2] using ih
      · rw [List.map_cons, if_neg (by simp [ha])]
        by_cases hai : a.1 = id
        · simp [lookupInfo, List.find?_cons, hai]
        · simpa [lookupInfo, List.find?_cons, hai] using ih

theorem lookupInfo_updateInfo_self (info : List (Nat × PprofInfo)) (k : Nat)
    (v : PprofInfo) : lookupInfo (updateInfo info k v) k = some v := by
  rcases hf : info.find? (fun p => p.1 == k) with _ | p
  · simp only [updateInfo, hf]
    rw [lookupInfo, List.find?_append, hf]
    simp [lookupInfo]
  · simp only [updateInfo, hf]
    exact lookupInfo_map_update k v info
      ((find?_key_isSome info k).mp (by rw [hf]; rfl))

theorem lookupInfo_updateInfo_other (info : List (Nat × PprofInfo))
    (k id : Nat) (v : PprofInfo) (h : id ≠ k) :
    lookupInfo (updateInfo info k v) id = lookupInfo info id := by
  rcases hf : info.find? (fun p => p.1 == k) with _ | p
  · simp only [updateInfo, hf]
    rw [lookupInfo, List.find?_append]
    rcases hg : info.find? (fun p => p.1 == id) with _ | q
    · simp [lookupInfo, hg, Ne.symm h]
    · simp [lookupInfo, hg]
  · simp only [updateInfo, hf]
    exact lookupInfo_map_update_other k id v h info

theorem updateInfo_keys (info : List (Nat × PprofInfo)) (k : Nat)
    (v : PprofInfo) :
    (updateInfo info k v).map Prod.fst =
      if k ∈ info.map Prod.fst then info.map Prod.fst
      else info.map Prod.fst ++ [k] := by
  rcases hf : info.find? (fun p => p.1 == k) with _ | p
  · simp only [updateInfo, hf]
    rw [if_neg ((find?_key_none info k).mp hf)]
    simp
  · simp only [updateInfo, hf]
    rw [if_pos ((find?_key_isSome info k).mp (by rw [hf]; rfl))]
    rw [List.map_map]
    refine List.map_congr_left ?_
    intro a _
    by_cases ha : a.1 = k
    · simp [Function.comp, ha]
    · simp [Function.comp, ha]

/-! ## `aggStep` characterization -/

theorem getLabelSet_info (ls : List String) (st : AggState) :
    (getLabelSet ls st).2.info = st.info := by
  rcases hf : st.labelSetIDs.find? (fun p => p.1 == concatLabels ls)
    with _ | p <;> simp only [getLabelSet, hf]

theorem aggStep_info_cpu (st : AggState) (e : Event)
    (he : e.typ = EvCPUSample) :
    ∃ lid : Int, (aggStep st e).info =
      updateInfo st.info e.StkID
        ⟨((lookupInfo st.info e.StkID).getD ⟨0, ⟨[], [], []⟩⟩).Value + 1,
         ⟨((lookupInfo st.info e.StkID).getD ⟨0, ⟨[], [], []⟩⟩).Breakdown.Timestamps ++ [e.Ts],
          ((lookupInfo st.info e.StkID).getD ⟨0, ⟨[], [], []⟩⟩).Breakdown.Values ++ [1],
          ((lookupInfo st.info e.StkID).getD ⟨0, ⟨[], [], []⟩⟩).Breakdown.LabelSets ++ [lid]⟩⟩ := by
  refine ⟨(getLabelSet (eventLabels e) st).1.ID, ?_⟩
  unfold aggStep
  rw [if_pos (by simp [he])]
  simp only [getLabelSet_info]

theorem aggStep_info_noncpu (st : AggState) (e : Event)
    (he : ¬ e.typ = EvCPUSample) : (aggStep st e).info = st.info := by
  unfold aggStep
  rw [if_neg (by simp [he])]

/-! ## The aggregation invariant -/

theorem foldl_inv_processed {α β : Type} (P : List α → β → Prop)
    (step : β → α → β)
    (hstep : ∀ pre acc x, P pre acc → P (pre ++ [x]) (step acc x)) :
    ∀ (l : List α) (pre : List α) (init : β), P pre init →
      P (pre ++ l) (l.foldl step init)
  | [], pre, init, h => by simpa using h
  | x :: xs, pre, init, h => by
      have := foldl_inv_processed P step hstep xs (pre ++ [x]) (step init x)
        (hstep pre init x h)
      simpa using this

theorem cpuStackIDs_append_cpu (pre : List Event) (e : Event)
    (he : e.typ = EvCPUSample) :
    cpuStackIDs (pre ++ [e]) = cpuStackIDs pre ++ [e.StkID] := by
  unfold cpuStackIDs
  rw [List.filter_append]
  simp [he]

theorem cpuStackIDs_append_noncpu (pre : List Event) (e : Event)
    (he : ¬ e.typ = EvCPUSample) :
    cpuStackIDs (pre ++ [e]) = cpuStackIDs pre := by
  unfold cpuStackIDs
  rw [List.filter_append]
  simp [he]

theorem cpuEventsFor_append_self (pre : List Event) (e : Event)
    (he : e.typ = EvCPUSample) :
    cpuEventsFor (pre ++ [e]) e.StkID = cpuEventsFor pre e.StkID ++ [e] := by
  unfold cpuEventsFor
  rw [List.filter_append]
  simp [he]

theorem cpuEventsFor_append_other (pre : List Event) (e : Event) (id : Nat)
    (hid : ¬ e.StkID = id) :
    cpuEventsFor (pre ++ [e]) id = cpuEventsFor pre id := by
  unfold cpuEventsFor
  rw [List.filter_append]
  simp [hid]

theorem cpuEventsFor_append_noncpu (pre : List Event) (e : Event) (id : Nat)
    (he : ¬ e.typ = EvCPUSample) :
    cpuEventsFor (pre ++ [e]) id = cpuEventsFor pre id := by
  unfold cpuEventsFor
  rw [List.filter_append]
  simp [he]

theorem aggregate_invariant (events : List Event) :
    AggInvariant events (aggregate events) := by
  unfold aggregate
  have base : AggInvariant [] emptyAgg := by
    refine ⟨by simp [emptyAgg, cpuStackIDs, firstDedup], ?_⟩
    intro id
    simp [emptyAgg, lookupInfo, cpuEventsFor]
  have step : ∀ pre st e, AggInvariant pre st →
      AggInvariant (pre ++ [e]) (aggStep st e) := by
    intro pre st e hinv
    by_cases he : e.typ = EvCPUSample
    · obtain ⟨lid, hinfo⟩ := aggStep_info_cpu st e he
      constructor
      · rw [hinfo, updateInfo_keys, hinv.1, cpuStackIDs_append_cpu pre e he,
          firstDedup_append_singleton]
        by_cases hmem : e.StkID ∈ cpuStackIDs pre
        · rw [if_pos ((mem_firstDedup _ _ _).mpr ⟨hmem, by simp⟩),
            if_pos (by simp [hmem])]
          simp
        · rw [if_neg (fun hc => hmem ((mem_firstDedup _ _ _).mp hc).1),
            if_neg (by simp [hmem])]
      · intro id
        by_cases hid : id = e.StkID
        · subst hid
          rw [hinfo, lookupInfo_updateInfo_self,
            cpuEventsFor_append_self pre e he]
          obtain ⟨h1, h2, h3, h4⟩ := hinv.2 e.StkID
          refine ⟨?_, ?_, ?_, ?_⟩
          · simp [h1]
          · simp [h2, List.replicate_succ']
          · simp [h3]
          · simp [h4]
        · rw [hinfo, lookupInfo_updateInfo_other _ _ _ _ hid,
            cpuEventsFor_append_other pre e id (fun hc => hid hc.symm)]
          exact hinv.2 id
    · rw [AggInvariant, aggStep_info_noncpu st e he,
        cpuStackIDs_append_noncpu pre e he]
      refine ⟨hinv.1, ?_⟩
      intro id
      rw [cpuEventsFor_append_noncpu pre e id he]
      exact hinv.2 id
  have := foldl_inv_processed AggInvariant aggStep step events [] emptyAgg base
  simpa using this

/-! ## Shapes of the serializer's sections -/

theorem labelSetsSection_mem : ∀ (sets : List LabelSet) (t : StrTab)
    (r : PRecord), r ∈ (labelSetsSection t sets).1 → r.1 = 16
  | [], t, r, h => by simp [labelSetsSection] at h
  | set :: rest, t, r, h => by
      rw [labelSetsSection] at h
      rcases List.mem_cons.mp h with rfl | h1
      · rfl
      · exact labelSetsSection_mem rest _ r h1

theorem labelSetsSection_length : ∀ (sets : List LabelSet) (t : StrTab),
    (labelSetsSection t sets).1.length = sets.length
  | [], _ => rfl
  | set :: rest, t => by
      rw [labelSetsSection]
      simp only [List.length_cons]
      rw [labelSetsSection_length rest]

theorem samplesSection_mem (stks : List (Nat × List Frame))
    (info : List (Nat × PprofInfo)) (order : List Nat) (r : PRecord)
    (h : r ∈ samplesSection stks info order) : r.1 = 2 := by
  obtain ⟨id, _, heq⟩ := List.mem_filterMap.mp h
  obtain ⟨pp, _, hr⟩ := Option.map_eq_some'.mp heq
  rw [← hr]
  rfl

theorem samplesSection_empty (stks : List (Nat × List Frame))
    (order : List Nat) : samplesSection stks [] order = [] := by
  unfold samplesSection
  rw [List.filterMap_eq_nil_iff]
  intro id _
  rfl

theorem functionsPass_recs_mem : ∀ (frames : List Frame) (fns : Functions)
    (t : StrTab) (r : PRecord), r ∈ (functionsPass fns t frames).2.1 →
      r.1 = 5
  | [], fns, t, r, h => by simp [functionsPass] at h
  | f :: rest, fns, t, r, h => by
      rw [functionsPass] at h
      rcases hf : fns.find? (fun p => p.1 == fnKey f) with _ | p <;>
        rw [hf] at h
      · rcases List.mem_cons.mp h with rfl | h1
        · rfl
        · exact functionsPass_recs_mem rest _ _ r h1
      · exact functionsPass_recs_mem rest fns t r h

theorem locationsPass_mem : ∀ (frames : List Frame) (fns : Functions)
    (locs : List Nat) (r : PRecord), r ∈ locationsPass fns locs frames →
      r.1 = 4
  | [], fns, locs, r, h => by simp [locationsPass] at h
  | f :: rest, fns, locs, r, h => by
      rw [locationsPass] at h
      by_cases hpc : f.PC ∈ locs
      · rw [if_pos hpc] at h
        exact locationsPass_mem rest fns locs r h
      · rw [if_neg hpc] at h
        rcases List.mem_cons.mp h with rfl | h1
        · rfl
        · exact locationsPass_mem rest fns _ r h1

/-- A list whose elements are all `c` under `f` maps to a replicate. -/
theorem map_eq_replicate {α β : Type} (f : α → β) (c : β) (l : List α)
    (h : ∀ x ∈ l, f x = c) : l.map f = List.replicate l.length c := by
  rw [List.eq_replicate_iff]
  refine ⟨by simp, ?_⟩
  intro b hb
  obtain ⟨x, hx, rfl⟩ := List.mem_map.mp hb
  exact h x hx

/-- The artifact splits into everything before the string table, followed by
the string table: the string table is the last top-level section. -/
theorem toPprof_split (parsed : ParseResult) (startNs stopNs : Int)
    (sampleOrder fnOrder locOrder : List Nat) (strOrder : List String) :
    toPprof parsed startNs stopNs sampleOrder fnOrder locOrder strOrder =
      toPprofPre parsed startNs stopNs sampleOrder fnOrder locOrder ++
        ((6, PValue.bytes "") ::
          strOrder.map (fun s => (6, PValue.bytes s))) := by
  simp only [toPprof, toPprofCore, toPprofPre, fnSectionOf, locSectionOf]

/-- The field numbers before the string table: `1`, then `16` per LabelSet,
`2` per Sample, one `3`, `5` per Function, `4` per Location, then
`9, 10, 11, 12, 15`. -/
theorem toPprofPre_fields (parsed : ParseResult) (startNs stopNs : Int)
    (sampleOrder fnOrder locOrder : List Nat) :
    (toPprofPre parsed startNs stopNs sampleOrder fnOrder locOrder).map
        Prod.fst =
      1 :: (List.replicate (aggregate parsed.Events).labelSets.length 16 ++
        (List.replicate (samplesSection parsed.Stacks
            (aggregate parsed.Events).info sampleOrder).length 2 ++
          3 :: (List.replicate (fnSectionOf parsed fnOrder).2.1.length 5 ++
            (List.replicate (locSectionOf parsed fnOrder locOrder).length 4 ++
              [9, 10, 11, 12, 15])))) := by
  simp only [toPprofPre]
  simp only [List.map_cons, List.map_append]
  rw [map_eq_replicate Prod.fst 16
      (labelSetsSection (valueTypeSection []).2
        (aggregate parsed.Events).labelSets).1
      (fun r h => labelSetsSection_mem _ _ r h),
    map_eq_replicate Prod.fst 2
      (samplesSection parsed.Stacks (aggregate parsed.Events).info
        sampleOrder)
      (fun r h => samplesSection_mem _ _ _ r h),
    map_eq_replicate Prod.fst 5 (fnSectionOf parsed fnOrder).2.1
      (fun r h => functionsPass_recs_mem _ _ _ r h),
    map_eq_replicate Prod.fst 4 (locSectionOf parsed fnOrder locOrder)
      (fun r h => locationsPass_mem _ _ _ r h),
    labelSetsSection_length]
  simp [valueTypeSection]

/-- No record before the string table carries field number 6. -/
theorem toPprofPre_no6 (parsed : ParseResult) (startNs stopNs : Int)
    (sampleOrder fnOrder locOrder : List Nat) (r : PRecord)
    (hr : r ∈ toPprofPre parsed startNs stopNs sampleOrder fnOrder locOrder) :
    r.1 ≠ 6 := by
  intro hc
  have h6 : (6 : Nat) ∈ (toPprofPre parsed startNs stopNs sampleOrder
      fnOrder locOrder).map Prod.fst :=
    List.mem_map.mpr ⟨r, hr, hc⟩
  rw [toPprofPre_fields] at h6
  simp [List.mem_append, List.mem_replicate] at h6

/-- The string-table entries of the artifact are the forced empty string
followed by the strings of the map-iteration order. -/
theorem stringEntries_toPprof (parsed : ParseResult) (startNs stopNs : Int)
    (sampleOrder fnOrder locOrder : List Nat) (strOrder : List String) :
    stringEntries (toPprof parsed startNs stopNs sampleOrder fnOrder
        locOrder strOrder) = "" :: strOrder := by
  rw [stringEntries, toPprof_split, List.filterMap_append]
  have h1 : (toPprofPre parsed startNs stopNs sampleOrder fnOrder
      locOrder).filterMap stringEntry = [] := by
    rw [List.filterMap_eq_nil_iff]
    intro r hr
    rw [stringEntry,
      if_neg (toPprofPre_no6 parsed startNs stopNs sampleOrder fnOrder
        locOrder r hr)]
  rw [h1, List.nil_append, List.filterMap_cons]
  have h2 : stringEntry (6, PValue.bytes "") = some "" := rfl
  rw [h2, List.filterMap_map]
  have h3 : (stringEntry ∘ fun s => ((6 : Nat), PValue.bytes s)) =
      fun s => some s := rfl
  rw [h3]
  simp

/-! ## Inputs without CPU samples -/

theorem foldl_aggStep_noncpu : ∀ (events : List Event) (st : AggState),
    (∀ e ∈ events, ¬ e.typ = EvCPUSample) → events.foldl aggStep st = st
  | [], _, _ => rfl
  | e :: rest, st, h => by
      have hstep : aggStep st e = st := by
        unfold aggStep
        rw [if_neg (by simpa using h e (List.mem_cons_self e rest))]
      rw [List.foldl_cons, hstep]
      exact foldl_aggStep_noncpu rest st
        (fun e' he' => h e' (List.mem_cons_of_mem e he'))

theorem aggregate_noncpu (events : List Event)
    (h : ∀ e ∈ events, ¬ e.typ = EvCPUSample) :
    aggregate events = emptyAgg :=
  foldl_aggStep_noncpu events emptyAgg h

theorem framesOf_nil (order : List Nat) : framesOf [] order = [] := by
  simp [framesOf, lookupStacks]

theorem countField_eq (art : List PRecord) (n : Nat) :
    countField art n = List.count n (art.map Prod.fst) := by
  rw [countField, List.count, List.countP_map]
  rfl

/-! ## `firstDedup` produces no duplicates -/

theorem firstDedup_nodup_aux {α : Type} [DecidableEq α] :
    ∀ (l seen : List α), seen.Nodup → (seen ++ firstDedup seen l).Nodup
  | [], seen, h => by simpa [firstDedup] using h
  | x :: rest, seen, h => by
      by_cases hx : x ∈ seen
      · rw [firstDedup, if_pos hx]
        exact firstDedup_nodup_aux rest seen h
      · rw [firstDedup, if_neg hx]
        have hsx : (seen ++ [x]).Nodup := by
          rw [List.nodup_append]
          exact ⟨h, List.nodup_singleton x, by simpa using hx⟩
        have := firstDedup_nodup_aux rest (seen ++ [x]) hsx
        simpa [List.append_assoc] using this

theorem firstDedup_nodup {α : Type} [DecidableEq α] (l : List α) :
    (firstDedup [] l).Nodup := by
  simpa using firstDedup_nodup_aux l [] List.nodup_nil

/-! ## The Location pass keeps the first frame per PC -/

theorem locationsPass_eq : ∀ (frames : List Frame) (fns : Functions)
    (locs : List Nat),
    locationsPass fns locs frames =
      (firstFramesByPC locs frames).map (locRecord fns)
  | [], _, _ => rfl
  | f :: rest, fns, locs => by
      rw [locationsPass, firstFramesByPC]
      by_cases hpc : f.PC ∈ locs
      · rw [if_pos hpc, if_pos hpc]
        exact locationsPass_eq rest fns locs
      · rw [if_neg hpc, if_neg hpc, List.map_cons]
        rw [locationsPass_eq rest fns (locs ++ [f.PC])]

theorem firstFramesByPC_pcs : ∀ (frames : List Frame) (seen : List Nat),
    (firstFramesByPC seen frames).map Frame.PC =
      firstDedup seen (frames.map Frame.PC)
  | [], _ => rfl
  | f :: rest, seen => by
      rw [firstFramesByPC, List.map_cons, firstDedup]
      by_cases hpc : f.PC ∈ seen
      · rw [if_pos hpc, if_pos hpc]
        exact firstFramesByPC_pcs rest seen
      · rw [if_neg hpc, if_neg hpc, List.map_cons,
          firstFramesByPC_pcs rest (seen ++ [f.PC])]

/-- The first frame of the scan with a given PC is the one that represents
that PC in the deduplicated sequence. -/
theorem firstFramesByPC_find : ∀ (frames : List Frame) (seen : List Nat)
    (g : Frame), g ∈ firstFramesByPC seen frames →
      frames.find? (fun f => f.PC == g.PC) = some g
  | [], _, g, h => by simp [firstFramesByPC] at h
  | f :: rest, seen, g, h => by
      rw [firstFramesByPC] at h
      by_cases hpc : f.PC ∈ seen
      · rw [if_pos hpc] at h
        have ih := firstFramesByPC_find rest seen g h
        rw [List.find?_cons]
        rcases hfg : (f.PC == g.PC) with _ | _
        · exact ih
        · -- f.PC = g.PC, but g survived with its PC not in `seen` —
          -- contradiction with f.PC ∈ seen
          exfalso
          have hgpc : g.PC ∈ (firstFramesByPC seen rest).map Frame.PC :=
            List.mem_map.mpr ⟨g, h, rfl⟩
          rw [firstFramesByPC_pcs] at hgpc
          have := (mem_firstDedup _ _ _).mp hgpc
          exact this.2 ((beq_iff_eq.mp hfg) ▸ hpc)
      · rw [if_neg hpc] at h
        rcases List.mem_cons.mp h with rfl | h1
        · rw [List.find?_cons]
          simp
        · have ih := firstFramesByPC_find rest (seen ++ [f.PC]) g h1
          rw [List.find?_cons]
          rcases hfg : (f.PC == g.PC) with _ | _
          · exact ih
          · exfalso
            have hgpc : g.PC ∈ (firstFramesByPC (seen ++ [f.PC]) rest).map
                Frame.PC := List.mem_map.mpr ⟨g, h1, rfl⟩
            rw [firstFramesByPC_pcs] at hgpc
            have := (mem_firstDedup _ _ _).mp hgpc
            exact this.2 (by simp [beq_iff_eq.mp hfg])

/-! ## The Function pass deduplicates on the concatenation key -/

theorem functionsPass_fns_keys : ∀ (frames : List Frame) (fns : Functions)
    (t : StrTab),
    (functionsPass fns t frames).1.map Prod.fst =
      fns.map Prod.fst ++ firstDedup (fns.map Prod.fst) (frames.map fnKey)
  | [], fns, t => by simp [functionsPass, firstDedup]
  | f :: rest, fns, t => by
      rw [functionsPass]
      rcases hf : fns.find? (fun p => p.1 == fnKey f) with _ | p <;> rw [hf]
      · have hkey : fnKey f ∉ fns.map Prod.fst := (find?_key_none _ _).mp hf
        rw [List.map_cons, firstDedup, if_neg hkey]
        have ih := functionsPass_fns_keys rest
          (fns ++ [(fnKey f, fns.length + 1)]) ((t.Get f.Fn).2.Get f.File).2
        simp only [ih, List.map_append]
        simp [List.append_assoc]
      · have hkey : fnKey f ∈ fns.map Prod.fst :=
          (find?_key_isSome _ _).mp (by rw [hf]; rfl)
        rw [List.map_cons, firstDedup, if_pos hkey]
        exact functionsPass_fns_keys rest fns t

theorem functionsPass_recs_length : ∀ (frames : List Frame)
    (fns : Functions) (t : StrTab),
    (functionsPass fns t frames).2.1.length =
      (firstDedup (fns.map Prod.fst) (frames.map fnKey)).length
  | [], _, _ => rfl
  | f :: rest, fns, t => by
      rw [functionsPass]
      rcases hf : fns.find? (fun p => p.1 == fnKey f) with _ | p <;> rw [hf]
      · have hkey : fnKey f ∉ fns.map Prod.fst := (find?_key_none _ _).mp hf
        rw [List.map_cons, firstDedup, if_neg hkey]
        have ih := functionsPass_recs_length rest
          (fns ++ [(fnKey f, fns.length + 1)]) ((t.Get f.Fn).2.Get f.File).2
        simp only [List.map_append, List.map_cons, List.map_nil] at ih
        simp [ih]
      · have hkey : fnKey f ∈ fns.map Prod.fst :=
          (find?_key_isSome _ _).mp (by rw [hf]; rfl)
        rw [List.map_cons, firstDedup, if_pos hkey]
        exact functionsPass_recs_length rest fns t

theorem functionsPass_rec_ids : ∀ (frames : List Frame) (fns : Functions)
    (t : StrTab),
    (fnRecData (functionsPass fns t frames).2.1).map (fun x => x.1) =
      List.range' (fns.length + 1) (functionsPass fns t frames).2.1.length
  | [], _, _ => rfl
  | f :: rest, fns, t => by
      rw [functionsPass]
      rcases hf : fns.find? (fun p => p.1 == fnKey f) with _ | p <;> rw [hf]
      · have ih := functionsPass_rec_ids rest
          (fns ++ [(fnKey f, fns.length + 1)]) ((t.Get f.Fn).2.Get f.File).2
        simp only [List.length_append, List.length_cons, List.length_nil]
          at ih
        rw [fnRecData, List.filterMap_cons]
        have hd : fnRecDatum (5, PValue.msg
            [(1, PValue.u64 (fns.length + 1)),
             (2, PValue.i64 (t.Get f.Fn).1),
             (4, PValue.i64 ((t.Get f.Fn).2.Get f.File).1)]) =
            some (fns.length + 1, (t.Get f.Fn).1,
              ((t.Get f.Fn).2.Get f.File).1) := rfl
        rw [hd]
        simp only [List.map_cons, List.length_cons]
        have ih' : (fnRecData (functionsPass
            (fns ++ [(fnKey f, fns.length + 1)])
            ((t.Get f.Fn).2.Get f.File).2 rest).2.1).map (fun x => x.1) =
            List.range' (fns.length + 1 + 1) (functionsPass
              (fns ++ [(fnKey f, fns.length + 1)])
              ((t.Get f.Fn).2.Get f.File).2 rest).2.1.length := by
          simpa using ih
        simp only [fnRecData] at ih'
        rw [List.range'_succ, ih']
      · exact functionsPass_rec_ids rest fns t

theorem functionsPass_fns_ids : ∀ (frames : List Frame) (fns : Functions)
    (t : StrTab), fns.map Prod.snd = List.range' 1 fns.length →
    (functionsPass fns t frames).1.map Prod.snd =
      List.range' 1 (functionsPass fns t frames).1.length
  | [], _, _, h => h
  | f :: rest, fns, t, h => by
      rw [functionsPass]
      rcases hf : fns.find? (fun p => p.1 == fnKey f) with _ | p <;> rw [hf]
      · refine functionsPass_fns_ids rest
          (fns ++ [(fnKey f, fns.length + 1)]) ((t.Get f.Fn).2.Get f.File).2
          ?_
        rw [List.map_append, h, List.length_append]
        simp [List.range'_concat, Nat.add_comm]
      · exact functionsPass_fns_ids rest fns t h

/-! ## Sample-section membership -/

theorem mem_samplesSection (stks : List (Nat × List Frame))
    (info : List (Nat × PprofInfo)) (order : List Nat) (id : Nat)
    (pp : PprofInfo) (hid : id ∈ order)
    (hpp : lookupInfo info id = some pp) :
    sampleRecord stks id pp ∈ samplesSection stks info order :=
  List.mem_filterMap.mpr ⟨id, hid, by rw [hpp]; rfl⟩

theorem samplesSection_sub_toPprof (parsed : ParseResult)
    (startNs stopNs : Int) (sampleOrder fnOrder locOrder : List Nat)
    (strOrder : List String) (r : PRecord)
    (hr : r ∈ samplesSection parsed.Stacks (aggregate parsed.Events).info
      sampleOrder) :
    r ∈ toPprof parsed startNs stopNs sampleOrder fnOrder locOrder
      strOrder := by
  rw [toPprof_split]
  refine List.mem_append.mpr (Or.inl ?_)
  simp only [toPprofPre, List.mem_cons, List.mem_append]
  simp [hr]

/-! ## Localizing the record extractors to their sections -/

theorem fnRecDatum_ne (r : PRecord) (h : r.1 ≠ 5) : fnRecDatum r = none := by
  rw [fnRecDatum, if_neg h]

theorem locRecDatum_ne (r : PRecord) (h : r.1 ≠ 4) : locRecDatum r = none := by
  rw [locRecDatum, if_neg h]

theorem sampleLocRef_ne (r : PRecord) (h : r.1 ≠ 2) :
    sampleLocRef r = none := by
  rw [sampleLocRef, if_neg h]

theorem filterMap_nil_of_ne {γ : Type} (ext : PRecord → Option γ) (nf : Nat)
    (hext : ∀ r : PRecord, r.1 ≠ nf → ext r = none)
    (l : List PRecord) (hl : ∀ r ∈ l, r.1 ≠ nf) :
    l.filterMap ext = [] := by
  rw [List.filterMap_eq_nil_iff]
  exact fun r hr => hext r (hl r hr)

theorem strRecs_filterMap_nil {γ : Type} (ext : PRecord → Option γ)
    (nf : Nat) (hnf : nf ≠ 6)
    (hext : ∀ r : PRecord, r.1 ≠ nf → ext r = none)
    (strOrder : List String) :
    ((6, PValue.bytes "") ::
      strOrder.map (fun s => (6, PValue.bytes s))).filterMap ext = [] := by
  refine filterMap_nil_of_ne ext nf hext _ ?_
  intro r hr
  rcases List.mem_cons.mp hr with rfl | h1
  · exact fun hc => hnf hc.symm
  · obtain ⟨s, _, rfl⟩ := List.mem_map.mp h1
    exact fun hc => hnf hc.symm

theorem fnRecData_toPprof (parsed : ParseResult) (startNs stopNs : Int)
    (sampleOrder fnOrder locOrder : List Nat) (strOrder : List String) :
    fnRecData (toPprof parsed startNs stopNs sampleOrder fnOrder locOrder
        strOrder) =
      fnRecData (fnSectionOf parsed fnOrder).2.1 := by
  rw [fnRecData, toPprof_split, List.filterMap_append,
    strRecs_filterMap_nil fnRecDatum 5 (by decide) fnRecDatum_ne,
    List.append_nil]
  simp only [toPprofPre, List.filterMap_append, List.filterMap_cons]
  have h16 : (labelSetsSection (valueTypeSection []).2
      (aggregate parsed.Events).labelSets).1.filterMap fnRecDatum = [] :=
    filterMap_nil_of_ne _ 5 fnRecDatum_ne _
      (fun r hr => by simp [labelSetsSection_mem _ _ r hr])
  have h2 : (samplesSection parsed.Stacks (aggregate parsed.Events).info
      sampleOrder).filterMap fnRecDatum = [] :=
    filterMap_nil_of_ne _ 5 fnRecDatum_ne _
      (fun r hr => by simp [samplesSection_mem _ _ _ r hr])
  have h4 : (locSectionOf parsed fnOrder locOrder).filterMap fnRecDatum =
      [] :=
    filterMap_nil_of_ne _ 5 fnRecDatum_ne _
      (fun r hr => by simp [locationsPass_mem _ _ _ r hr])
  rw [h16, h2, h4]
  simp [fnRecData, fnRecDatum, valueTypeSection]

theorem locRecData_toPprof (parsed : ParseResult) (startNs stopNs : Int)
    (sampleOrder fnOrder locOrder : List Nat) (strOrder : List String) :
    locRecData (toPprof parsed startNs stopNs sampleOrder fnOrder locOrder
        strOrder) =
      locRecData (locSectionOf parsed fnOrder locOrder) := by
  rw [locRecData, toPprof_split, List.filterMap_append,
    strRecs_filterMap_nil locRecDatum 4 (by decide) locRecDatum_ne,
    List.append_nil]
  simp only [toPprofPre, List.filterMap_append, List.filterMap_cons]
  have h16 : (labelSetsSection (valueTypeSection []).2
      (aggregate parsed.Events).labelSets).1.filterMap locRecDatum = [] :=
    filterMap_nil_of_ne _ 4 locRecDatum_ne _
      (fun r hr => by simp [labelSetsSection_mem _ _ r hr])
  have h2 : (samplesSection parsed.Stacks (aggregate parsed.Events).info
      sampleOrder).filterMap locRecDatum = [] :=
    filterMap_nil_of_ne _ 4 locRecDatum_ne _
      (fun r hr => by simp [samplesSection_mem _ _ _ r hr])
  have h5 : (fnSectionOf parsed fnOrder).2.1.filterMap locRecDatum = [] :=
    filterMap_nil_of_ne _ 4 locRecDatum_ne _
      (fun r hr => by simp [functionsPass_recs_mem _ _ _ r hr])
  rw [h16, h2, h5]
  simp [locRecData, locRecDatum, valueTypeSection]

theorem sampleLocRefs_toPprof (parsed : ParseResult) (startNs stopNs : Int)
    (sampleOrder fnOrder locOrder : List Nat) (strOrder : List String) :
    sampleLocRefs (toPprof parsed startNs stopNs sampleOrder fnOrder
        locOrder strOrder) =
      sampleLocRefs (samplesSection parsed.Stacks
        (aggregate parsed.Events).info sampleOrder) := by
  rw [sampleLocRefs, toPprof_split, List.filterMap_append,
    strRecs_filterMap_nil sampleLocRef 2 (by decide) sampleLocRef_ne,
    List.append_nil]
  simp only [toPprofPre, List.filterMap_append, List.filterMap_cons]
  have h16 : (labelSetsSection (valueTypeSection []).2
      (aggregate parsed.Events).labelSets).1.filterMap sampleLocRef = [] :=
    filterMap_nil_of_ne _ 2 sampleLocRef_ne _
      (fun r hr => by simp [labelSetsSection_mem _ _ r hr])
  have h5 : (fnSectionOf parsed fnOrder).2.1.filterMap sampleLocRef = [] :=
    filterMap_nil_of_ne _ 2 sampleLocRef_ne _
      (fun r hr => by simp [functionsPass_recs_mem _ _ _ r hr])
  have h4 : (locSectionOf parsed fnOrder locOrder).filterMap sampleLocRef =
      [] :=
    filterMap_nil_of_ne _ 2 sampleLocRef_ne _
      (fun r hr => by simp [locationsPass_mem _ _ _ r hr])
  rw [h16, h5, h4]
  simp [sampleLocRefs, sampleLocRef, valueTypeSection]

/-! ## The Location section as a function of the deduplicated frames -/

theorem locRecData_locSection (parsed : ParseResult)
    (fnOrder locOrder : List Nat) :
    locRecData (locSectionOf parsed fnOrder locOrder) =
      (firstFramesByPC [] (framesOf parsed.Stacks locOrder)).map
        (fun f => (f.PC, f.PC,
          fnLookup (fnSectionOf parsed fnOrder).1 (fnKey f), f.Line)) := by
  rw [locSectionOf, locationsPass_eq, locRecData, List.filterMap_map]
  have hcomp : (locRecDatum ∘ locRecord (fnSectionOf parsed fnOrder).1) =
      some ∘ (fun f => (f.PC, f.PC,
        fnLookup (fnSectionOf parsed fnOrder).1 (fnKey f), f.Line)) := rfl
  rw [hcomp, List.filterMap_eq_map]

theorem locRecData_pcs (parsed : ParseResult) (fnOrder locOrder : List Nat) :
    (locRecData (locSectionOf parsed fnOrder locOrder)).map (fun x => x.1) =
      firstDedup [] ((framesOf parsed.Stacks locOrder).map Frame.PC) := by
  rw [locRecData_locSection, List.map_map]
  have : ((fun x => x.1) ∘ (fun f : Frame => (f.PC, f.PC,
      fnLookup (fnSectionOf parsed fnOrder).1 (fnKey f), f.Line))) =
      Frame.PC := rfl
  rw [this, firstFramesByPC_pcs]

/-- Membership in the flattened stack scan. -/
theorem mem_framesOf (stks : List (Nat × List Frame)) (order : List Nat)
    (x : Frame) :
    x ∈ framesOf stks order ↔ ∃ id ∈ order, x ∈ lookupStacks stks id := by
  rw [framesOf, List.mem_flatten]
  constructor
  · rintro ⟨l, hl, hx⟩
    obtain ⟨id, hid, rfl⟩ := List.mem_map.mp hl
    exact ⟨id, hid, hx⟩
  · rintro ⟨id, hid, hx⟩
    exact ⟨lookupStacks stks id, List.mem_map.mpr ⟨id, hid, rfl⟩, hx⟩

theorem framesOf_mem_iff (stks : List (Nat × List Frame))
    (o1 o2 : List Nat) (hp : o1.Perm o2) (x : Frame) :
    x ∈ framesOf stks o1 ↔ x ∈ framesOf stks o2 := by
  rw [mem_framesOf, mem_framesOf]
  constructor
  · rintro ⟨id, hid, hx⟩
    exact ⟨id, hp.mem_iff.mp hid, hx⟩
  · rintro ⟨id, hid, hx⟩
    exact ⟨id, hp.mem_iff.mpr hid, hx⟩

/-- A scanned frame's Function-index value is one of the assigned IDs. -/
theorem fnLookup_mem_values (parsed : ParseResult) (fnOrder : List Nat)
    (f : Frame) (hf : f ∈ framesOf parsed.Stacks fnOrder) :
    fnLookup (fnSectionOf parsed fnOrder).1 (fnKey f) ∈
      (fnSectionOf parsed fnOrder).1.map Prod.snd := by
  have hkeys : (fnSectionOf parsed fnOrder).1.map Prod.fst =
      firstDedup [] ((framesOf parsed.Stacks fnOrder).map fnKey) := by
    have := functionsPass_fns_keys (framesOf parsed.Stacks fnOrder) []
      (labelSetsSection (valueTypeSection []).2
        (aggregate parsed.Events).labelSets).2
    simpa [fnSectionOf] using this
  have hmem : fnKey f ∈ (fnSectionOf parsed fnOrder).1.map Prod.fst := by
    rw [hkeys]
    exact (mem_firstDedup _ _ _).mpr
      ⟨List.mem_map.mpr ⟨f, hf, rfl⟩, by simp⟩
  have hsome := (find?_key_isSome (fnSectionOf parsed fnOrder).1
    (fnKey f)).mpr hmem
  obtain ⟨p, hp⟩ := Option.isSome_iff_exists.mp hsome
  have hpl : fnLookup (fnSectionOf parsed fnOrder).1 (fnKey f) = p.2 := by
    rw [fnLookup, hp]
    rfl
  rw [hpl]
  exact List.mem_map.mpr ⟨p, List.mem_of_find?_eq_some hp, rfl⟩

/-- The sample records' location references are the PCs of the looked-up
stacks. -/
theorem sampleLocRef_sampleRecord (stks : List (Nat × List Frame))
    (id : Nat) (pp : PprofInfo) :
    sampleLocRef (sampleRecord stks id pp) =
      some ((lookupStacks stks id).map Frame.PC) := by
  rw [sampleRecord, sampleLocRef]
  rw [if_pos rfl]
  simp only [List.filterMap_append, List.filterMap_map]
  have hcomp : (pcRef ∘ fun f : Frame => ((1 : Nat), PValue.u64 f.PC)) =
      some ∘ Frame.PC := rfl
  rw [hcomp, List.filterMap_eq_map]
  simp [pcRef]

theorem mem_sampleLocRefs (stks : List (Nat × List Frame))
    (info : List (Nat × PprofInfo)) (order : List Nat) (refs : List Nat)
    (h : refs ∈ sampleLocRefs (samplesSection stks info order)) :
    ∃ id, refs = (lookupStacks stks id).map Frame.PC := by
  obtain ⟨r, hr, href⟩ := List.mem_filterMap.mp h
  obtain ⟨id, _, heq⟩ := List.mem_filterMap.mp hr
  obtain ⟨pp, _, hrec⟩ := Option.map_eq_some'.mp heq
  refine ⟨id, ?_⟩
  rw [← hrec, sampleLocRef_sampleRecord] at href
  exact (Option.some_inj.mp href).symm

/-! ## Claims -/

/-- C9: for every string `s` and every (well-formed) state of the string
table, `Get s` returns the previously assigned ID if `s` was interned
before, and otherwise assigns the current table size as `s`'s ID and stores
it; a second `Get s` on the resulting table returns the same ID and leaves
the table unchanged; and the assigned IDs stay dense, starting at 0. -/
theorem C9_strTab_get_contract (t : StrTab) (s : String) (h : WFtab t) :
    (∀ i : Int, (s, i) ∈ t → t.Get s = (i, t)) ∧
    (s ∉ t.map Prod.fst →
      t.Get s = ((t.length : Int), t ++ [(s, (t.length : Int))])) ∧
    (t.Get s).2.Get s = ((t.Get s).1, (t.Get s).2) ∧
    WFtab (t.Get s).2 := by
  refine ⟨fun i hi => StrTab.Get_of_mem t s i h.2 hi,
          StrTab.Get_of_not_mem t s, ?_, StrTab.Get_wf t s h⟩
  by_cases hm : s ∈ t.map Prod.fst
  · obtain ⟨p, hp, hfst⟩ := List.mem_map.mp hm
    have hps : p = (s, p.2) := by
      rw [← hfst]
    rw [StrTab.Get_of_mem t s p.2 h.2 (hps ▸ hp)]
    exact StrTab.Get_of_mem t s p.2 h.2 (hps ▸ hp)
  · have hg := StrTab.Get_of_not_mem t s hm
    have hwf := StrTab.Get_wf t s h
    rw [hg] at hwf ⊢
    exact StrTab.Get_of_mem _ s _ hwf.2 (by simp)

/-- Witness for C9: a concrete well-formed table, with both an interned and
a fresh string. -/
theorem C9_strTab_get_contract_witness :
    WFtab [("time", 0), ("ns", 1)] ∧
    ((∀ i : Int, ("ns", i) ∈ [("time", 0), ("ns", 1)] →
        StrTab.Get [("time", 0), ("ns", 1)] "ns" = (i, [("time", 0), ("ns", 1)])) ∧
     ("ns" ∉ [("time", 0), ("ns", 1)].map Prod.fst →
        StrTab.Get [("time", 0), ("ns", 1)] "ns" =
          ((2 : Int), [("time", 0), ("ns", 1)] ++ [("ns", (2 : Int))])) ∧
     (StrTab.Get [("time", 0), ("ns", 1)] "ns").2.Get "ns" =
        ((StrTab.Get [("time", 0), ("ns", 1)] "ns").1,
         (StrTab.Get [("time", 0), ("ns", 1)] "ns").2) ∧
     WFtab (StrTab.Get [("time", 0), ("ns", 1)] "ns").2) :=
  ⟨by decide, C9_strTab_get_contract [("time", 0), ("ns", 1)] "ns" (by decide)⟩

/-- C5: the label-set registry assigns each new LabelSet a dense ID in
strict first-encounter order starting at 0; and for any two label sequences
whose no-separator concatenations are equal, a lookup of the second after
the first was registered returns the very same LabelSet and leaves the
registry unchanged — so in particular two distinct such sequences share one
LabelSet. -/
theorem C5_labelset_registry (events : List Event) (st : AggState)
    (ls1 ls2 : List String) (h : concatLabels ls1 = concatLabels ls2) :
    (((aggregate events).labelSets).map LabelSet.ID =
      (List.range (aggregate events).labelSets.length).map
        (fun n => (n : Int))) ∧
    getLabelSet ls2 (getLabelSet ls1 st).2 =
      ((getLabelSet ls1 st).1, (getLabelSet ls1 st).2) :=
  ⟨labelSets_dense events, getLabelSet_shared st ls1 ls2 h⟩

/-- Witness for C5: the distinct sequences `["ab", "c"]` and `["a", "bc"]`
concatenate to the same key, and the second lookup returns the first's
LabelSet. -/
theorem C5_labelset_registry_witness :
    concatLabels ["ab", "c"] = concatLabels ["a", "bc"] ∧
    ((((aggregate pTwoSamples.Events).labelSets).map LabelSet.ID =
       (List.range (aggregate pTwoSamples.Events).labelSets.length).map
         (fun n => (n : Int))) ∧
     getLabelSet ["a", "bc"] (getLabelSet ["ab", "c"] emptyAgg).2 =
       ((getLabelSet ["ab", "c"] emptyAgg).1,
        (getLabelSet ["ab", "c"] emptyAgg).2)) :=
  ⟨by decide,
   C5_labelset_registry pTwoSamples.Events emptyAgg ["ab", "c"] ["a", "bc"]
     (by decide)⟩

/-- C4: for every input and every `StackAggregate` built by the aggregation
pass, `Value` equals the sum of `Breakdown.Values`, the three Breakdown
sequences have equal length, and the entries are appended in the relative
order of the aggregate's source events in the input stream (the timestamp
sequence is exactly the timestamps of that stack's CPU-sample events, in
stream order). -/
theorem C4_aggregate_invariants (events : List Event) (id : Nat)
    (pp : PprofInfo)
    (h : lookupInfo (aggregate events).info id = some pp) :
    pp.Value = pp.Breakdown.Values.sum ∧
    pp.Breakdown.Timestamps.length = pp.Breakdown.Values.length ∧
    pp.Breakdown.Values.length = pp.Breakdown.LabelSets.length ∧
    pp.Breakdown.Timestamps = (cpuEventsFor events id).map Event.Ts := by
  obtain ⟨h1, h2, h3, h4⟩ := (aggregate_invariant events).2 id
  rw [h] at h1 h2 h3 h4
  simp only [Option.getD_some] at h1 h2 h3 h4
  refine ⟨?_, ?_, ?_, h1⟩
  · rw [h4, h2, List.sum_replicate]
    simp
  · rw [h1, h2]
    simp
  · rw [h2, h3]
    simp

/-- Witness for C4: the two-sample input (Scenario C) has the aggregate
`{Value := 2, Breakdown := ⟨[10, 20], [1, 1], [0, 1]⟩}` at stack 1. -/
theorem C4_aggregate_invariants_witness :
    lookupInfo (aggregate pTwoSamples.Events).info 1 =
      some ⟨2, ⟨[10, 20], [1, 1], [0, 1]⟩⟩ ∧
    ((PprofInfo.mk 2 ⟨[10, 20], [1, 1], [0, 1]⟩).Value =
        (PprofInfo.mk 2 ⟨[10, 20], [1, 1], [0, 1]⟩).Breakdown.Values.sum ∧
     (PprofInfo.mk 2 ⟨[10, 20], [1, 1], [0, 1]⟩).Breakdown.Timestamps.length =
        (PprofInfo.mk 2 ⟨[10, 20], [1, 1], [0, 1]⟩).Breakdown.Values.length ∧
     (PprofInfo.mk 2 ⟨[10, 20], [1, 1], [0, 1]⟩).Breakdown.Values.length =
        (PprofInfo.mk 2 ⟨[10, 20], [1, 1], [0, 1]⟩).Breakdown.LabelSets.length ∧
     (PprofInfo.mk 2 ⟨[10, 20], [1, 1], [0, 1]⟩).Breakdown.Timestamps =
        (cpuEventsFor pTwoSamples.Events 1).map Event.Ts) :=
  ⟨by decide, C4_aggregate_invariants pTwoSamples.Events 1 _ (by decide)⟩

/-- C7: for every input (and any map-iteration orders), the top-level
records of the emitted artifact appear in exactly the order value-type,
label-sets, samples, mapping, functions, locations, time-nanos,
duration-nanos, period-type, period, tick-unit, string-table, with field
numbers 1, 16, 2, 3, 5, 4, 9, 10, 11, 12, 15, 6 respectively. -/
theorem C7_section_order (parsed : ParseResult) (startNs stopNs : Int)
    (sampleOrder fnOrder locOrder : List Nat) (strOrder : List String) :
    ∃ nLS nS nF nL nStr : Nat,
      (toPprof parsed startNs stopNs sampleOrder fnOrder locOrder
          strOrder).map Prod.fst =
        [1] ++ List.replicate nLS 16 ++ List.replicate nS 2 ++ [3] ++
        List.replicate nF 5 ++ List.replicate nL 4 ++
        [9, 10, 11, 12, 15] ++ List.replicate (nStr + 1) 6 := by
  refine ⟨(aggregate parsed.Events).labelSets.length,
    (samplesSection parsed.Stacks (aggregate parsed.Events).info
      sampleOrder).length,
    (fnSectionOf parsed fnOrder).2.1.length,
    (locSectionOf parsed fnOrder locOrder).length,
    strOrder.length, ?_⟩
  rw [toPprof_split, List.map_append, toPprofPre_fields]
  simp only [List.map_cons, List.map_map]
  rw [map_eq_replicate (Prod.fst ∘ fun s => ((6 : Nat), PValue.bytes s)) 6
      strOrder (fun x _ => rfl)]
  simp [List.replicate_succ, List.append_assoc]

/-- C1 counterexample: the emitted order of string-table entries is the map
iteration order, which Go does not fix.  On an empty input the final table is
`[("time", 0), ("ns", 1), ("nanoseconds", 2)]`; under the (legal) iteration
order `["ns", "time", "nanoseconds"]`, the string `"time"` with assigned ID
0 does not sit at position 0 + 1 of the emitted table. -/
theorem C1_position_counterexample :
    List.Perm ["ns", "time", "nanoseconds"]
      ((finalStrTab pEmpty []).map Prod.fst) ∧
    ("time", (0 : Int)) ∈ finalStrTab pEmpty [] ∧
    ¬ (∀ (s : String) (i : Int), (s, i) ∈ finalStrTab pEmpty [] →
        (stringEntries (toPprof pEmpty 0 0 [] [] []
          ["ns", "time", "nanoseconds"])).get? (i.toNat + 1) = some s) := by
  refine ⟨by decide, by decide, fun h => ?_⟩
  exact absurd (h "time" 0 (by decide)) (by decide)

/-- C1 (amended): for every input and every legal string-table iteration
order, the string table is the last top-level section of the artifact (no
earlier record carries field 6), its entry 0 is the forced empty string, and
every interned string appears exactly once among the following entries — but
in map-iteration order, not necessarily at position ID + 1. -/
theorem C1_string_table_amended (parsed : ParseResult) (startNs stopNs : Int)
    (sampleOrder fnOrder locOrder : List Nat) (strOrder : List String)
    (hperm : strOrder.Perm ((finalStrTab parsed fnOrder).map Prod.fst)) :
    toPprof parsed startNs stopNs sampleOrder fnOrder locOrder strOrder =
      toPprofPre parsed startNs stopNs sampleOrder fnOrder locOrder ++
        ((6, PValue.bytes "") ::
          strOrder.map (fun s => (6, PValue.bytes s))) ∧
    (∀ r ∈ toPprofPre parsed startNs stopNs sampleOrder fnOrder locOrder,
      r.1 ≠ 6) ∧
    stringEntries (toPprof parsed startNs stopNs sampleOrder fnOrder
      locOrder strOrder) = "" :: strOrder ∧
    ∀ s ∈ (finalStrTab parsed fnOrder).map Prod.fst,
      List.count s strOrder = 1 := by
  refine ⟨toPprof_split parsed startNs stopNs sampleOrder fnOrder locOrder
      strOrder,
    fun r hr => toPprofPre_no6 parsed startNs stopNs sampleOrder fnOrder
      locOrder r hr,
    stringEntries_toPprof parsed startNs stopNs sampleOrder fnOrder locOrder
      strOrder, ?_⟩
  intro s hs
  rw [hperm.count_eq s]
  exact List.count_eq_one_of_mem (finalStrTab_wf parsed fnOrder).2 hs

/-- Witness for the amended C1, on the empty input with a non-identity
iteration order. -/
theorem C1_string_table_amended_witness :
    List.Perm ["ns", "time", "nanoseconds"]
      ((finalStrTab pEmpty []).map Prod.fst) ∧
    (toPprof pEmpty 0 0 [] [] [] ["ns", "time", "nanoseconds"] =
        toPprofPre pEmpty 0 0 [] [] [] ++
          ((6, PValue.bytes "") ::
            ["ns", "time", "nanoseconds"].map
              (fun s => (6, PValue.bytes s))) ∧
     (∀ r ∈ toPprofPre pEmpty 0 0 [] [] [], r.1 ≠ 6) ∧
     stringEntries
        (toPprof pEmpty 0 0 [] [] [] ["ns", "time", "nanoseconds"]) =
       "" :: ["ns", "time", "nanoseconds"] ∧
     ∀ s ∈ (finalStrTab pEmpty []).map Prod.fst,
       List.count s ["ns", "time", "nanoseconds"] = 1) :=
  ⟨by decide,
   C1_string_table_amended pEmpty 0 0 [] [] [] ["ns", "time", "nanoseconds"]
     (by decide)⟩

/-- C3 counterexample: with zero CPU-sample events but a stack in the
`Stacks` mapping, the Function pass still scans that stack — it iterates
`parsed.Stacks`, not the stacks referenced by the aggregator — so the
function-name and file strings do end up in the string table. -/
theorem C3_unreferenced_stack_counterexample :
    (∀ e ∈ pLoneStack.Events, ¬ e.typ = EvCPUSample) ∧
    List.Perm ["time", "ns", "f", "a.go", "nanoseconds"]
      ((finalStrTab pLoneStack [1]).map Prod.fst) ∧
    ¬ (∀ s ∈ stringEntries (toPprof pLoneStack 0 0 [] [1] [1]
          ["time", "ns", "f", "a.go", "nanoseconds"]),
        s ∈ ["", "time", "ns", "nanoseconds"]) :=
  ⟨by decide, by decide,
   fun h => absurd (h "f" (by decide)) (by decide)⟩

/-- C3 (amended): an input with zero CPU-sample events yields zero Sample
records, zero LabelSet records and exactly one Mapping record; and its
string table consists of only the forced empty string and the fixed
literals "time", "ns", "nanoseconds" provided the `Stacks` mapping is empty
too — functions and locations are gathered from every stack in the `Stacks`
mapping, not only from stacks referenced by the aggregator. -/
theorem C3_zero_cpu_amended (parsed : ParseResult) (startNs stopNs : Int)
    (sampleOrder fnOrder locOrder : List Nat) (strOrder : List String)
    (hcpu : ∀ e ∈ parsed.Events, ¬ e.typ = EvCPUSample)
    (hperm : strOrder.Perm ((finalStrTab parsed fnOrder).map Prod.fst)) :
    countField (toPprof parsed startNs stopNs sampleOrder fnOrder locOrder
      strOrder) 2 = 0 ∧
    countField (toPprof parsed startNs stopNs sampleOrder fnOrder locOrder
      strOrder) 16 = 0 ∧
    countField (toPprof parsed startNs stopNs sampleOrder fnOrder locOrder
      strOrder) 3 = 1 ∧
    (parsed.Stacks = [] →
      List.Perm
        (stringEntries (toPprof parsed startNs stopNs sampleOrder fnOrder
          locOrder strOrder))
        ["", "time", "ns", "nanoseconds"]) := by
  have hagg : aggregate parsed.Events = emptyAgg := aggregate_noncpu _ hcpu
  have hsmp : samplesSection parsed.Stacks emptyAgg.info sampleOrder = [] :=
    samplesSection_empty parsed.Stacks sampleOrder
  have hfields : (toPprof parsed startNs stopNs sampleOrder fnOrder locOrder
      strOrder).map Prod.fst =
      1 :: (List.replicate 0 16 ++ (List.replicate 0 2 ++
        3 :: (List.replicate (fnSectionOf parsed fnOrder).2.1.length 5 ++
          (List.replicate (locSectionOf parsed fnOrder locOrder).length 4 ++
            [9, 10, 11, 12, 15])))) ++
      6 :: List.replicate strOrder.length 6 := by
    rw [toPprof_split, List.map_append, toPprofPre_fields, hagg, hsmp]
    simp only [List.map_cons, List.map_map]
    rw [map_eq_replicate (Prod.fst ∘ fun s => ((6 : Nat), PValue.bytes s)) 6
        strOrder (fun x _ => rfl)]
    simp [emptyAgg]
  refine ⟨?_, ?_, ?_, ?_⟩
  · rw [countField_eq, hfields]
    simp [List.count_append, List.count_cons, List.count_replicate]
  · rw [countField_eq, hfields]
    simp [List.count_append, List.count_cons, List.count_replicate]
  · rw [countField_eq, hfields]
    simp [List.count_append, List.count_cons, List.count_replicate]
  · intro hstk
    have htab : finalStrTab parsed fnOrder =
        [("time", 0), ("ns", 1), ("nanoseconds", 2)] := by
      simp only [finalStrTab, toPprofCore, hagg, hstk, framesOf_nil]
      rfl
    rw [stringEntries_toPprof]
    have : strOrder.Perm ["time", "ns", "nanoseconds"] := by
      rw [htab] at hperm
      exact hperm
    exact this.cons ""

/-- Witness for the amended C3: no events at all, empty stack table. -/
theorem C3_zero_cpu_amended_witness :
    (∀ e ∈ pEmpty.Events, ¬ e.typ = EvCPUSample) ∧
    List.Perm ["nanoseconds", "ns", "time"]
      ((finalStrTab pEmpty []).map Prod.fst) ∧
    (countField (toPprof pEmpty 0 0 [] [] []
      ["nanoseconds", "ns", "time"]) 2 = 0 ∧
     countField (toPprof pEmpty 0 0 [] [] []
      ["nanoseconds", "ns", "time"]) 16 = 0 ∧
     countField (toPprof pEmpty 0 0 [] [] []
      ["nanoseconds", "ns", "time"]) 3 = 1 ∧
     (pEmpty.Stacks = [] →
       List.Perm
         (stringEntries (toPprof pEmpty 0 0 [] [] []
           ["nanoseconds", "ns", "time"]))
         ["", "time", "ns", "nanoseconds"])) :=
  ⟨by decide, by decide,
   C3_zero_cpu_amended pEmpty 0 0 [] [] [] ["nanoseconds", "ns", "time"]
     (by decide) (by decide)⟩

/-- C8: a CPU-sample event whose `StkID` has no entry in the `Stacks`
mapping does not make the encoder fail: the missing lookup yields the empty
frame sequence, the event's aggregate is still created, and its Sample
record is emitted with zero location identifiers. -/
theorem C8_missing_stack_degrades (parsed : ParseResult)
    (startNs stopNs : Int) (sampleOrder fnOrder locOrder : List Nat)
    (strOrder : List String) (e : Event) (he : e ∈ parsed.Events)
    (hcpu : e.typ = EvCPUSample)
    (hmiss : ∀ p ∈ parsed.Stacks, p.1 ≠ e.StkID)
    (hord : e.StkID ∈ sampleOrder) :
    lookupStacks parsed.Stacks e.StkID = [] ∧
    ∃ pp : PprofInfo,
      lookupInfo (aggregate parsed.Events).info e.StkID = some pp ∧
      sampleRecord parsed.Stacks e.StkID pp ∈
        toPprof parsed startNs stopNs sampleOrder fnOrder locOrder
          strOrder ∧
      sampleLocRef (sampleRecord parsed.Stacks e.StkID pp) = some [] := by
  have hnotmem : e.StkID ∉ parsed.Stacks.map Prod.fst := by
    intro hc
    obtain ⟨p, hp, hpk⟩ := List.mem_map.mp hc
    exact hmiss p hp hpk
  have hfind : parsed.Stacks.find? (fun p => p.1 == e.StkID) = none :=
    (find?_key_none parsed.Stacks e.StkID).mpr hnotmem
  have hstk : lookupStacks parsed.Stacks e.StkID = [] := by
    simp only [lookupStacks, hfind]
  refine ⟨hstk, ?_⟩
  have hkey : e.StkID ∈ (aggregate parsed.Events).info.map Prod.fst := by
    rw [(aggregate_invariant parsed.Events).1]
    refine (mem_firstDedup _ _ _).mpr ⟨?_, by simp⟩
    exact List.mem_map.mpr
      ⟨e, List.mem_filter.mpr ⟨he, by simp [hcpu]⟩, rfl⟩
  have hsome :
      ((aggregate parsed.Events).info.find?
        (fun p => p.1 == e.StkID)).isSome = true :=
    (find?_key_isSome _ _).mpr hkey
  obtain ⟨q, hq⟩ := Option.isSome_iff_exists.mp hsome
  refine ⟨q.2, by rw [lookupInfo, hq]; rfl, ?_, ?_⟩
  · exact samplesSection_sub_toPprof parsed startNs stopNs sampleOrder
      fnOrder locOrder strOrder _
      (mem_samplesSection _ _ _ _ _ hord (by rw [lookupInfo, hq]; rfl))
  · simp [sampleRecord, sampleLocRef, pcRef, hstk]

/-- Witness for C8: one CPU sample at stack ID 2, with an empty `Stacks`
mapping. -/
theorem C8_missing_stack_degrades_witness :
    ((⟨EvCPUSample, 10, 7, 2⟩ : Event) ∈ pMissingStack.Events ∧
     (⟨EvCPUSample, 10, 7, 2⟩ : Event).typ = EvCPUSample ∧
     (∀ p ∈ pMissingStack.Stacks,
        p.1 ≠ (⟨EvCPUSample, 10, 7, 2⟩ : Event).StkID) ∧
     (⟨EvCPUSample, 10, 7, 2⟩ : Event).StkID ∈ [2]) ∧
    (lookupStacks pMissingStack.Stacks
        (⟨EvCPUSample, 10, 7, 2⟩ : Event).StkID = [] ∧
     ∃ pp : PprofInfo,
       lookupInfo (aggregate pMissingStack.Events).info
           (⟨EvCPUSample, 10, 7, 2⟩ : Event).StkID = some pp ∧
       sampleRecord pMissingStack.Stacks
           (⟨EvCPUSample, 10, 7, 2⟩ : Event).StkID pp ∈
         toPprof pMissingStack 0 100 [2] [] []
           ["time", "ns", "thread_id:", "7", "nanoseconds"] ∧
       sampleLocRef (sampleRecord pMissingStack.Stacks
           (⟨EvCPUSample, 10, 7, 2⟩ : Event).StkID pp) = some []) :=
  ⟨⟨by decide, by decide, by decide, by decide⟩,
   C8_missing_stack_degrades pMissingStack 0 100 [2] [] []
     ["time", "ns", "thread_id:", "7", "nanoseconds"]
     ⟨EvCPUSample, 10, 7, 2⟩ (by decide) (by decide) (by decide)
     (by decide)⟩

/-- C2 counterexample: functions are deduplicated on the *concatenation*
`Fn ++ File`, not on the pair.  The frames `("ab", "c")` and `("a", "bc")`
have distinct (Name, File) pairs but produce one single Function record and
share its ID. -/
theorem C2_pair_dedup_counterexample :
    ((⟨1, "ab", "c", 1⟩ : Frame) ∈ framesOf pCollide.Stacks [1] ∧
     (⟨2, "a", "bc", 2⟩ : Frame) ∈ framesOf pCollide.Stacks [1] ∧
     ¬ ((⟨1, "ab", "c", 1⟩ : Frame).Fn = (⟨2, "a", "bc", 2⟩ : Frame).Fn ∧
        (⟨1, "ab", "c", 1⟩ : Frame).File =
          (⟨2, "a", "bc", 2⟩ : Frame).File)) ∧
    (fnRecData (toPprof pCollide 0 0 [] [1] [1]
        ["time", "ns", "ab", "c", "nanoseconds"])).length = 1 ∧
    fnLookup (fnSectionOf pCollide [1]).1 (fnKey ⟨1, "ab", "c", 1⟩) =
      fnLookup (fnSectionOf pCollide [1]).1 (fnKey ⟨2, "a", "bc", 2⟩) := by
  refine ⟨⟨by decide, by decide, by decide⟩, by decide, by decide⟩

/-- C2 (amended): Function records are deduplicated on the concatenation
`Fn ++ File`: each distinct concatenation observed across the scanned
stacks yields exactly one emitted Function record, with IDs assigned
densely starting at 1 in first-encounter order, and two scanned frames
share a Function ID exactly when their concatenations are equal (so frames
with distinct concatenations — but not necessarily frames with distinct
(Name, File) pairs — never share a record). -/
theorem C2_function_dedup_amended (parsed : ParseResult)
    (startNs stopNs : Int) (sampleOrder fnOrder locOrder : List Nat)
    (strOrder : List String) (f g : Frame)
    (hf : f ∈ framesOf parsed.Stacks fnOrder)
    (hg : g ∈ framesOf parsed.Stacks fnOrder) :
    (fnRecData (toPprof parsed startNs stopNs sampleOrder fnOrder locOrder
        strOrder)).length =
      (firstDedup [] ((framesOf parsed.Stacks fnOrder).map fnKey)).length ∧
    (fnRecData (toPprof parsed startNs stopNs sampleOrder fnOrder locOrder
        strOrder)).map (fun x => x.1) =
      List.range' 1 (fnRecData (toPprof parsed startNs stopNs sampleOrder
        fnOrder locOrder strOrder)).length ∧
    (fnLookup (fnSectionOf parsed fnOrder).1 (fnKey f) =
       fnLookup (fnSectionOf parsed fnOrder).1 (fnKey g) ↔
     fnKey f = fnKey g) := by
  have hids := functionsPass_rec_ids (framesOf parsed.Stacks fnOrder) []
    (labelSetsSection (valueTypeSection []).2
      (aggregate parsed.Events).labelSets).2
  have hlen : (fnRecData (fnSectionOf parsed fnOrder).2.1).length =
      (fnSectionOf parsed fnOrder).2.1.length := by
    have := congrArg List.length hids
    simpa [fnSectionOf] using this
  have hdata := fnRecData_toPprof parsed startNs stopNs sampleOrder fnOrder
    locOrder strOrder
  refine ⟨?_, ?_, ?_⟩
  · rw [hdata, hlen]
    have := functionsPass_recs_length (framesOf parsed.Stacks fnOrder) []
      (labelSetsSection (valueTypeSection []).2
        (aggregate parsed.Events).labelSets).2
    simpa [fnSectionOf] using this
  · rw [hdata, hlen]
    simpa [fnSectionOf] using hids
  · have hkeys : (fnSectionOf parsed fnOrder).1.map Prod.fst =
        firstDedup [] ((framesOf parsed.Stacks fnOrder).map fnKey) := by
      have := functionsPass_fns_keys (framesOf parsed.Stacks fnOrder) []
        (labelSetsSection (valueTypeSection []).2
          (aggregate parsed.Events).labelSets).2
      simpa [fnSectionOf] using this
    have hknd : ((fnSectionOf parsed fnOrder).1.map Prod.fst).Nodup := by
      rw [hkeys]
      exact firstDedup_nodup _
    have hvnd : ((fnSectionOf parsed fnOrder).1.map Prod.snd).Nodup := by
      have := functionsPass_fns_ids (framesOf parsed.Stacks fnOrder) []
        (labelSetsSection (valueTypeSection []).2
          (aggregate parsed.Events).labelSets).2 (by simp)
      rw [show (functionsPass [] (labelSetsSection (valueTypeSection []).2
          (aggregate parsed.Events).labelSets).2
          (framesOf parsed.Stacks fnOrder)) = fnSectionOf parsed fnOrder
          from rfl] at this
      rw [this]
      exact List.nodup_range' _ _
    have hmemkey : ∀ h : Frame, h ∈ framesOf parsed.Stacks fnOrder →
        fnKey h ∈ (fnSectionOf parsed fnOrder).1.map Prod.fst := by
      intro h hh
      rw [hkeys]
      exact (mem_firstDedup _ _ _).mpr
        ⟨List.mem_map.mpr ⟨h, hh, rfl⟩, by simp⟩
    constructor
    · intro heq
      obtain ⟨p, hp, hpk⟩ := List.mem_map.mp (hmemkey f hf)
      obtain ⟨q, hq, hqk⟩ := List.mem_map.mp (hmemkey g hg)
      have hlp : fnLookup (fnSectionOf parsed fnOrder).1 (fnKey f) = p.2 := by
        rw [fnLookup, find?_key_of_mem_nodup _ _ p.2 hknd (by
          rw [← hpk]
          simpa using hp)]
        rfl
      have hlq : fnLookup (fnSectionOf parsed fnOrder).1 (fnKey g) = q.2 := by
        rw [fnLookup, find?_key_of_mem_nodup _ _ q.2 hknd (by
          rw [← hqk]
          simpa using hq)]
        rfl
      have hpq : p = q :=
        List.inj_on_of_nodup_map hvnd hp hq (by
          rw [← hlp, ← hlq, heq])
      rw [← hpk, ← hqk, hpq]
    · intro heq
      rw [heq]

/-- Witness for the amended C2, on the collision input: the two frames with
equal concatenations resolve to the same Function ID. -/
theorem C2_function_dedup_amended_witness :
    ((⟨1, "ab", "c", 1⟩ : Frame) ∈ framesOf pCollide.Stacks [1] ∧
     (⟨2, "a", "bc", 2⟩ : Frame) ∈ framesOf pCollide.Stacks [1]) ∧
    ((fnRecData (toPprof pCollide 0 0 [] [1] [1]
        ["time", "ns", "ab", "c", "nanoseconds"])).length =
      (firstDedup [] ((framesOf pCollide.Stacks [1]).map fnKey)).length ∧
     (fnRecData (toPprof pCollide 0 0 [] [1] [1]
        ["time", "ns", "ab", "c", "nanoseconds"])).map (fun x => x.1) =
      List.range' 1 (fnRecData (toPprof pCollide 0 0 [] [1] [1]
        ["time", "ns", "ab", "c", "nanoseconds"])).length ∧
     (fnLookup (fnSectionOf pCollide [1]).1 (fnKey ⟨1, "ab", "c", 1⟩) =
        fnLookup (fnSectionOf pCollide [1]).1 (fnKey ⟨2, "a", "bc", 2⟩) ↔
      fnKey (⟨1, "ab", "c", 1⟩ : Frame) = fnKey ⟨2, "a", "bc", 2⟩)) :=
  ⟨⟨by decide, by decide⟩,
   C2_function_dedup_amended pCollide 0 0 [] [1] [1]
     ["time", "ns", "ab", "c", "nanoseconds"] ⟨1, "ab", "c", 1⟩
     ⟨2, "a", "bc", 2⟩ (by decide) (by decide)⟩

/-- C6 counterexample: on the collision input the Location record for PC 2
embeds Function ID 1, yet the unique Function record (ID 1) decodes — via
the well-formed string table — to name "ab" and file "c", not to PC 2's
first frame's pair ("a", "bc"): the embedded Function ID does not match a
Function record for that PC's (Name, File) pair. -/
theorem C6_function_pair_counterexample :
    (2, 2, 1, (2 : Int)) ∈ locRecData (toPprof pCollide 0 0 [] [1] [1]
      ["time", "ns", "ab", "c", "nanoseconds"]) ∧
    (framesOf pCollide.Stacks [1]).find? (fun f => f.PC == 2) =
      some ⟨2, "a", "bc", 2⟩ ∧
    fnRecData (toPprof pCollide 0 0 [] [1] [1]
      ["time", "ns", "ab", "c", "nanoseconds"]) = [(1, 2, 3)] ∧
    ("ab", (2 : Int)) ∈ finalStrTab pCollide [1] ∧
    ("c", (3 : Int)) ∈ finalStrTab pCollide [1] ∧
    WFtab (finalStrTab pCollide [1]) ∧
    ("ab" : String) ≠ "a" ∧ ("c" : String) ≠ "bc" := by
  decide

/-- C6 (amended): exactly one Location record is emitted per distinct
program counter of the scanned stacks; its ID and address are the PC value
itself; the record is built from the first frame observed for that PC in
the scan (later frames with the same PC are ignored); and, when the two
stack scans agree up to permutation, the embedded Function ID is the
function index's ID for that frame's *concatenation* key `Fn ++ File`, and
it references exactly one emitted Function record. -/
theorem C6_location_records_amended (parsed : ParseResult)
    (startNs stopNs : Int) (sampleOrder fnOrder locOrder : List Nat)
    (strOrder : List String) (hperm : locOrder.Perm fnOrder) :
    locRecData (toPprof parsed startNs stopNs sampleOrder fnOrder locOrder
        strOrder) =
      (firstFramesByPC [] (framesOf parsed.Stacks locOrder)).map
        (fun f => (f.PC, f.PC,
          fnLookup (fnSectionOf parsed fnOrder).1 (fnKey f), f.Line)) ∧
    ((locRecData (toPprof parsed startNs stopNs sampleOrder fnOrder
        locOrder strOrder)).map (fun x => x.1)).Nodup ∧
    (∀ fr ∈ firstFramesByPC [] (framesOf parsed.Stacks locOrder),
      (framesOf parsed.Stacks locOrder).find? (fun f => f.PC == fr.PC) =
        some fr) ∧
    ∀ x ∈ locRecData (toPprof parsed startNs stopNs sampleOrder fnOrder
        locOrder strOrder),
      List.count x.2.2.1 ((fnRecData (toPprof parsed startNs stopNs
        sampleOrder fnOrder locOrder strOrder)).map (fun y => y.1)) = 1 := by
  refine ⟨by rw [locRecData_toPprof, locRecData_locSection], ?_, ?_, ?_⟩
  · rw [locRecData_toPprof, locRecData_pcs]
    exact firstDedup_nodup _
  · exact fun fr hfr => firstFramesByPC_find _ _ fr hfr
  · intro x hx
    rw [locRecData_toPprof, locRecData_locSection] at hx
    obtain ⟨f, hf, rfl⟩ := List.mem_map.mp hx
    have hfl : f ∈ framesOf parsed.Stacks locOrder :=
      List.mem_of_find?_eq_some (firstFramesByPC_find _ _ f hf)
    have hffn : f ∈ framesOf parsed.Stacks fnOrder :=
      (framesOf_mem_iff parsed.Stacks locOrder fnOrder hperm f).mp hfl
    have hval := fnLookup_mem_values parsed fnOrder f hffn
    have hvals : (fnSectionOf parsed fnOrder).1.map Prod.snd =
        List.range' 1 (fnSectionOf parsed fnOrder).1.length := by
      have := functionsPass_fns_ids (framesOf parsed.Stacks fnOrder) []
        (labelSetsSection (valueTypeSection []).2
          (aggregate parsed.Events).labelSets).2 (by simp)
      simpa [fnSectionOf] using this
    have hrecids : (fnRecData (toPprof parsed startNs stopNs sampleOrder
        fnOrder locOrder strOrder)).map (fun y => y.1) =
        List.range' 1 (fnSectionOf parsed fnOrder).2.1.length := by
      rw [fnRecData_toPprof]
      have := functionsPass_rec_ids (framesOf parsed.Stacks fnOrder) []
        (labelSetsSection (valueTypeSection []).2
          (aggregate parsed.Events).labelSets).2
      simpa [fnSectionOf] using this
    have hlens : (fnSectionOf parsed fnOrder).1.length =
        (fnSectionOf parsed fnOrder).2.1.length := by
      have h1 := functionsPass_fns_keys (framesOf parsed.Stacks fnOrder) []
        (labelSetsSection (valueTypeSection []).2
          (aggregate parsed.Events).labelSets).2
      have h2 := functionsPass_recs_length (framesOf parsed.Stacks fnOrder)
        []
        (labelSetsSection (valueTypeSection []).2
          (aggregate parsed.Events).labelSets).2
      have h1' := congrArg List.length h1
      simp only [List.length_map, List.nil_append, List.map_nil] at h1' h2
      rw [show (functionsPass [] (labelSetsSection (valueTypeSection []).2
          (aggregate parsed.Events).labelSets).2
          (framesOf parsed.Stacks fnOrder)) = fnSectionOf parsed fnOrder
          from rfl] at h1' h2
      rw [h1', h2]
    rw [hrecids]
    refine List.count_eq_one_of_mem (List.nodup_range' _ _) ?_
    rw [← hlens]
    rw [hvals] at hval
    simpa using hval

/-- Witness for the amended C6, on the one-sample input. -/
theorem C6_location_records_amended_witness :
    List.Perm [1] [1] ∧
    (locRecData (toPprof pOneSample 0 100 [1] [1] [1]
        ["time", "ns", "thread_id:", "7", "f", "a.go", "nanoseconds"]) =
      (firstFramesByPC [] (framesOf pOneSample.Stacks [1])).map
        (fun f => (f.PC, f.PC,
          fnLookup (fnSectionOf pOneSample [1]).1 (fnKey f), f.Line)) ∧
     ((locRecData (toPprof pOneSample 0 100 [1] [1] [1]
        ["time", "ns", "thread_id:", "7", "f", "a.go",
         "nanoseconds"])).map (fun x => x.1)).Nodup ∧
     (∀ fr ∈ firstFramesByPC [] (framesOf pOneSample.Stacks [1]),
       (framesOf pOneSample.Stacks [1]).find? (fun f => f.PC == fr.PC) =
         some fr) ∧
     ∀ x ∈ locRecData (toPprof pOneSample 0 100 [1] [1] [1]
        ["time", "ns", "thread_id:", "7", "f", "a.go", "nanoseconds"]),
       List.count x.2.2.1 ((fnRecData (toPprof pOneSample 0 100 [1] [1] [1]
        ["time", "ns", "thread_id:", "7", "f", "a.go",
         "nanoseconds"])).map (fun y => y.1)) = 1) :=
  ⟨by decide,
   C6_location_records_amended pOneSample 0 100 [1] [1] [1]
     ["time", "ns", "thread_id:", "7", "f", "a.go", "nanoseconds"]
     (by decide)⟩

/-- C10: every location identifier written inside a Sample record occurs as
the ID of exactly one emitted Location record — no dangling references —
whenever the Location scan covers the keys of the `Stacks` mapping. -/
theorem C10_no_dangling_locations (parsed : ParseResult)
    (startNs stopNs : Int) (sampleOrder fnOrder locOrder : List Nat)
    (strOrder : List String)
    (hcover : ∀ p ∈ parsed.Stacks, p.1 ∈ locOrder)
    (refs : List Nat) (pc : Nat)
    (hrefs : refs ∈ sampleLocRefs (toPprof parsed startNs stopNs
      sampleOrder fnOrder locOrder strOrder))
    (hpc : pc ∈ refs) :
    List.count pc ((locRecData (toPprof parsed startNs stopNs sampleOrder
      fnOrder locOrder strOrder)).map (fun x => x.1)) = 1 := by
  rw [sampleLocRefs_toPprof] at hrefs
  obtain ⟨id, rfl⟩ := mem_sampleLocRefs _ _ _ _ hrefs
  obtain ⟨fr, hfr, rfl⟩ := List.mem_map.mp hpc
  have hmem : fr ∈ framesOf parsed.Stacks locOrder := by
    rw [mem_framesOf]
    rcases hfind : parsed.Stacks.find? (fun p => p.1 == id) with _ | p
    · rw [lookupStacks, hfind] at hfr
      cases hfr
    · have hp := List.mem_of_find?_eq_some hfind
      have hbeq := List.find?_some hfind
      have hpk : p.1 = id := by simpa using hbeq
      exact ⟨id, hpk ▸ hcover p hp, hfr⟩
  rw [locRecData_toPprof, locRecData_pcs]
  refine List.count_eq_one_of_mem (firstDedup_nodup _) ?_
  exact (mem_firstDedup _ _ _).mpr
    ⟨List.mem_map.mpr ⟨fr, hmem, rfl⟩, by simp⟩

/-- Witness for C10: the one-sample input's single reference (PC 100) has
exactly one Location record. -/
theorem C10_no_dangling_locations_witness :
    ((∀ p ∈ pOneSample.Stacks, p.1 ∈ [1]) ∧
     [100] ∈ sampleLocRefs (toPprof pOneSample 0 100 [1] [1] [1]
       ["time", "ns", "thread_id:", "7", "f", "a.go", "nanoseconds"]) ∧
     100 ∈ [100]) ∧
    List.count 100 ((locRecData (toPprof pOneSample 0 100 [1] [1] [1]
      ["time", "ns", "thread_id:", "7", "f", "a.go",
       "nanoseconds"])).map (fun x => x.1)) = 1 :=
  ⟨⟨by decide, by decide, by decide⟩,
   C10_no_dangling_locations pOneSample 0 100 [1] [1] [1]
     ["time", "ns", "thread_id:", "7", "f", "a.go", "nanoseconds"]
     (by decide) [100] 100 (by decide) (by decide)⟩

end Trace2Timeline
